import Mathlib

/-!
Verification of the reconciliation engine of the flickr-downloader
repository against its design specification.

The Python sources are shallowly embedded below.  Python strings are
modelled as Lean `String`, Python `set`s as duplicate-free-by-use lists,
Python dicts as association lists (insertion order preserved, matching
CPython semantics), the filesystem as an association list from paths to
byte sizes, and the remote Flickr service as an explicit environment
record.  Sleeps, logging and JSON persistence have no influence on any
claim and are not modelled; the in-memory progress set and URL cache are
the persisted state.  Exceptions are modelled with `Option`/`Except`.
-/

namespace FlickrDL

/-! ## Python string primitives used by the source -/

/-- `as` is a prefix of `bs` (character lists); models `str.startswith`. -/
def chStarts : List Char → List Char → Bool
  | [], _ => true
  | _ :: _, [] => false
  | a :: as, b :: bs => a == b && chStarts as bs

/-- `needle` occurs inside `hay`; models Python's `needle in hay`. -/
def chContains (needle : List Char) : List Char → Bool
  | [] => needle.isEmpty
  | c :: rest => chStarts needle (c :: rest) || chContains needle rest

/-- Models `str.lower()` (ASCII is all the source compares). -/
def pyLower (s : String) : String := String.mk (s.toList.map Char.toLower)

/-- Models `needle in hay` on Python strings. -/
def pyIn (needle hay : String) : Bool := chContains needle.toList hay.toList

/-- Models `s.startswith(pre)`. -/
def pyStarts (s pre : String) : Bool := chStarts pre.toList s.toList

/-- Models `re.sub(r'[<>:"/\\|?*]', '_', name)` from `utils/files.py`. -/
def sanitizeFilename (s : String) : String :=
  String.mk (s.toList.map (fun c =>
    if c ∈ ['<', '>', ':', '"', '/', '\\', '|', '?', '*'] then '_' else c))

/-! ## Quality Selector (`api/client.py`, `_select_best_photo` / `_select_best_video`) -/

/-- One entry of the `photos.getSizes` response (`s` in the source loops). -/
structure Size where
  source : String
  label : String
  width : Nat
  height : Nat
  size : Nat
  deriving DecidableEq, Repr

/-- The candidate dict built by `_select_best_photo` / `_select_best_video`. -/
structure Cand where
  url : String
  label : String
  width : Nat
  height : Nat
  resolution : Nat
  file_size : Nat
  is_original : Bool
  deriving DecidableEq, Repr

/-- The dict literal appended to the candidate list in the source. -/
def mkCand (s : Size) : Cand :=
  { url := s.source
    label := s.label
    width := s.width
    height := s.height
    resolution := s.width * s.height
    file_size := s.size
    is_original := pyLower s.label == "original" }

/-- The video filter: `'/play/' in s['source'] or 'video' in s['label'].lower()`. -/
def isVideoSize (s : Size) : Bool :=
  pyIn "/play/" s.source || pyIn "video" (pyLower s.label)

/-- Candidate list built by `_select_best_video` (order of `sizes` kept). -/
def videoCandidates (sizes : List Size) : List Cand :=
  (sizes.filter isVideoSize).map mkCand

/-- Candidate list built by `_select_best_photo`:
`'/play/' not in s['source'] and 'video' not in s['label'].lower()`. -/
def photoCandidates (sizes : List Size) : List Cand :=
  (sizes.filter (fun s => !(isVideoSize s))).map mkCand

/-- `is_original` as the number Python's tuple comparison sees (False < True). -/
def kOrig (c : Cand) : Nat := if c.is_original then 1 else 0

/-- Strict comparison of the sort keys
`(is_original, resolution, file_size)` (Python tuple `<`). -/
def keyLt (a b : Cand) : Prop :=
  kOrig a < kOrig b ∨
    (kOrig a = kOrig b ∧
      (a.resolution < b.resolution ∨
        (a.resolution = b.resolution ∧ a.file_size < b.file_size)))

instance : DecidablePred (fun p : Cand × Cand => keyLt p.1 p.2) := by
  unfold keyLt; intro p; infer_instance

instance (a b : Cand) : Decidable (keyLt a b) := by
  unfold keyLt; infer_instance

/-- Insert into a list already sorted descending, keeping the inserted
(later-encountered) element after all elements with a `≥` key: this is the
placement a stable descending sort gives it. -/
def insertDesc (x : Cand) : List Cand → List Cand
  | [] => [x]
  | y :: ys => if keyLt x y then y :: insertDesc x ys else x :: y :: ys

/-- Stable descending sort; models
`candidates.sort(key=lambda x: (x['is_original'], x['resolution'], x['file_size']), reverse=True)`
(CPython's sort is stable, and `reverse=True` reverses comparisons, not
the order of equal elements). -/
def sortDesc : List Cand → List Cand
  | [] => []
  | x :: xs => insertDesc x (sortDesc xs)

/-- `candidates[0]` after the sort, `None` when the list is empty. -/
def selectBest (cands : List Cand) : Option Cand :=
  (sortDesc cands).head?

/-- `_select_best_photo` (the returned pair's URL component is `.url` of
the result; the human-readable `selected_info` string is display-only). -/
def selectBestPhoto (sizes : List Size) : Option Cand :=
  selectBest (photoCandidates sizes)

/-- `_select_best_video`. -/
def selectBestVideo (sizes : List Size) : Option Cand :=
  selectBest (videoCandidates sizes)

/-- Key equality (Python tuple `==` on the three sort keys). -/
def sameKey (a b : Cand) : Prop :=
  kOrig a = kOrig b ∧ a.resolution = b.resolution ∧ a.file_size = b.file_size

lemma keyLt_asymm {a b : Cand} (h : keyLt a b) : ¬ keyLt b a := by
  unfold keyLt at *
  omega

lemma keyLt_irrefl (a : Cand) : ¬ keyLt a a := by
  unfold keyLt; omega

lemma keyLt_total {a b : Cand} (hab : ¬ keyLt a b) (hba : ¬ keyLt b a) :
    sameKey a b := by
  unfold keyLt at hab hba
  unfold sameKey
  omega

lemma keyLt_trans {a b c : Cand} (h1 : keyLt a b) (h2 : keyLt b c) :
    keyLt a c := by
  unfold keyLt at *
  omega

lemma sameKey_lt_congr {a b c : Cand} (h : sameKey a b) :
    keyLt a c ↔ keyLt b c := by
  unfold sameKey at h
  unfold keyLt
  omega

/-- The head of the stable descending sort is the first element of the
input attaining the maximal key: it is maximal, and everything before it
in the input is strictly below it. -/
theorem sortDesc_head (l : List Cand) (h : l ≠ []) :
    ∃ pre c post, l = pre ++ c :: post ∧ (sortDesc l).head? = some c ∧
      (∀ d ∈ l, ¬ keyLt c d) ∧ (∀ d ∈ pre, keyLt d c) := by
  induction l with
  | nil => exact absurd rfl h
  | cons x xs ih =>
    by_cases hxs : xs = []
    · subst hxs
      refine ⟨[], x, [], by simp, by simp [selectBest, sortDesc, insertDesc], ?_, by simp⟩
      intro d hd
      simp at hd
      subst hd
      exact keyLt_irrefl _
    · obtain ⟨pre, cm, post, hsplit, hhead, hmax, hpre⟩ := ih hxs
      obtain ⟨rest, hrest⟩ : ∃ rest, sortDesc xs = cm :: rest := by
        cases hs : sortDesc xs with
        | nil => rw [hs] at hhead; simp at hhead
        | cons a as =>
          rw [hs] at hhead
          simp at hhead
          exact ⟨as, by rw [hhead]⟩
      have hstep : sortDesc (x :: xs) = insertDesc x (sortDesc xs) := rfl
      by_cases hxc : keyLt x cm
      · refine ⟨x :: pre, cm, post, by simp [hsplit], ?_, ?_, ?_⟩
        · rw [hstep, hrest]
          simp [insertDesc, if_pos hxc]
        · intro d hd
          rcases List.mem_cons.mp hd with hd | hd
          · subst hd
            exact keyLt_asymm hxc
          · exact hmax d hd
        · intro d hd
          rcases List.mem_cons.mp hd with hd | hd
          · subst hd; exact hxc
          · exact hpre d hd
      · refine ⟨[], x, xs, by simp, ?_, ?_, by simp⟩
        · rw [hstep, hrest]
          simp [insertDesc, if_neg hxc]
        · intro d hd
          rcases List.mem_cons.mp hd with hd | hd
          · subst hd; exact keyLt_irrefl _
          · intro hxd
            rcases Classical.em (keyLt cm x) with hcx | hcx
            · exact hmax d hd (keyLt_trans hcx hxd)
            · have hsame := keyLt_total hcx hxc
              exact hmax d hd ((sameKey_lt_congr hsame).mpr hxd)

/-- C2.  Quality Selector ranking: on every non-empty filtered candidate
list the selector returns the first-encountered candidate that is maximal
under the lexicographic descending key (`is_original`, resolution, byte
size); every earlier candidate is strictly below that key, and as soon as
any candidate has `is_original`, the chosen one does too (the flag
dominates resolution and size).  The URL the source returns is the `url`
field of that candidate. -/
theorem quality_selector_ranking (cands : List Cand) (h : cands ≠ []) :
    ∃ pre c post, cands = pre ++ c :: post ∧
      selectBest cands = some c ∧
      (selectBest cands).map Cand.url = some c.url ∧
      (∀ d ∈ cands, ¬ keyLt c d) ∧
      (∀ d ∈ pre, keyLt d c) ∧
      ((∃ d ∈ cands, d.is_original = true) → c.is_original = true) := by
  obtain ⟨pre, c, post, hsplit, hhead, hmax, hpre⟩ := sortDesc_head cands h
  refine ⟨pre, c, post, hsplit, hhead, by simp [selectBest, hhead], hmax, hpre, ?_⟩
  rintro ⟨d, hd, hdorig⟩
  by_contra hc
  apply hmax d hd
  unfold keyLt kOrig
  simp [hdorig, hc]

/-- The spec's worked example: a "Medium" candidate with higher
resolution and byte size alongside a lower-resolution "Original". -/
def sizesExample : List Size :=
  [⟨"u/medium.jpg", "Medium", 10, 10, 10⟩, ⟨"u/orig.jpg", "Original", 5, 10, 5⟩]

/-- C2 witness: on the spec's example the selector picks the "Original"
candidate despite its lower resolution and size. -/
theorem quality_selector_ranking_witness :
    (∃ pre c post, photoCandidates sizesExample = pre ++ c :: post ∧
       selectBest (photoCandidates sizesExample) = some c ∧
       (selectBest (photoCandidates sizesExample)).map Cand.url = some c.url ∧
       (∀ d ∈ photoCandidates sizesExample, ¬ keyLt c d) ∧
       (∀ d ∈ pre, keyLt d c) ∧
       ((∃ d ∈ photoCandidates sizesExample, d.is_original = true) →
          c.is_original = true)) ∧
    (selectBestPhoto sizesExample).map Cand.url = some "u/orig.jpg" :=
  ⟨quality_selector_ranking (photoCandidates sizesExample) (by decide), by decide⟩

/-! ## Duplicate Resolver (`main.py`, `_process_duplicates_and_create_plan`;
identical logic in the monolithic `flickr_downloader.py` `main`) -/

/-- `next((album for album in albums if album != "Auto Upload"), albums[0])`;
`albums[0]` of an empty list would raise, hence `Option`. -/
def primaryAlbum (albums : List String) : Option String :=
  match albums.find? (fun a => a != "Auto Upload") with
  | some a => some a
  | none => albums.head?

/-- The per-item canonical-album choice of
`_process_duplicates_and_create_plan`: the duplicate branch prefers any
album other than "Auto Upload", the singleton branch takes the only album. -/
def canonicalAlbum (albums : List String) : Option String :=
  if 1 < albums.length then primaryAlbum albums else albums.head?

/-- The title-recovery loop `for photo_id, title in album_photos[primary]`. -/
def lookupTitle (photos : List (String × String)) (pid : String) : Option String :=
  (photos.find? (fun p => p.1 == pid)).map Prod.snd

/-- `photos_to_download`: one entry per photo of `photo_locations` whose
canonical album lists it (the source silently drops a photo whose title
lookup fails, which cannot happen for locations built by `_scan_albums`). -/
def processDuplicates (photoLocations : List (String × List String))
    (albumPhotos : String → List (String × String)) :
    List (String × String × String) :=
  photoLocations.filterMap (fun e =>
    match canonicalAlbum e.2 with
    | some a => (lookupTitle (albumPhotos a) e.1).map (fun t => (e.1, a, t))
    | none => none)

lemma find?_of_prefix_fails {p : String → Bool} (pre post : List String) (a : String)
    (hpre : ∀ b ∈ pre, p b = false) (ha : p a = true) :
    (pre ++ a :: post).find? p = some a := by
  induction pre with
  | nil => simp [List.find?_cons, ha]
  | cons b bs ih =>
    have hb : p b = false := hpre b (by simp)
    simp only [List.cons_append, List.find?_cons, hb]
    exact ih (fun x hx => hpre x (by simp [hx]))

/-- C1.  Duplicate Resolver canonical assignment, all three cases of the
claim: a photo in exactly one album is assigned that album; a photo in
several albums is assigned the first album of the containment list that
is not "Auto Upload"; if every containing album is "Auto Upload", the
first in list order is chosen.  In each case the Ownership Map
(`processDuplicates`) contains the corresponding entry. -/
theorem duplicate_resolver_canonical (pl : List (String × List String))
    (ap : String → List (String × String)) (pid t a : String)
    (albums pre post : List String)
    (hmem : (pid, albums) ∈ pl)
    (hsplit : albums = pre ++ a :: post)
    (hcase : (pre = [] ∧ post = []) ∨
             (2 ≤ albums.length ∧ (∀ b ∈ pre, b = "Auto Upload") ∧ a ≠ "Auto Upload") ∨
             (2 ≤ albums.length ∧ (∀ b ∈ albums, b = "Auto Upload") ∧ pre = []))
    (htitle : lookupTitle (ap a) pid = some t) :
    (pid, a, t) ∈ processDuplicates pl ap := by
  have hcanon : canonicalAlbum albums = some a := by
    rcases hcase with ⟨h1, h2⟩ | ⟨hlen, hpre, hne⟩ | ⟨hlen, hall, hnl⟩
    · subst h1; subst h2; subst hsplit
      simp [canonicalAlbum]
    · subst hsplit
      unfold canonicalAlbum primaryAlbum
      rw [if_pos (by omega)]
      rw [find?_of_prefix_fails pre post a
        (fun b hb => by simp [hpre b hb]) (by simp [hne])]
    · subst hsplit
      subst hnl
      unfold canonicalAlbum primaryAlbum
      rw [if_pos (by omega)]
      have : ((([] : List String) ++ a :: post).find? (fun x => x != "Auto Upload")) = none := by
        rw [List.find?_eq_none]
        intro x hx
        have := hall x hx
        simp [this]
      rw [this]
      simp
  apply List.mem_filterMap.mpr
  exact ⟨(pid, albums), hmem, by simp [hcanon, htitle]⟩

/-- C1 witness: photo `p1` is in "Auto Upload" and "Trip"; the Ownership
Map assigns "Trip". -/
theorem duplicate_resolver_canonical_witness :
    ("p1", "Trip", "Sunset") ∈ processDuplicates [("p1", ["Auto Upload", "Trip"])]
      (fun a => if a = "Trip" then [("p1", "Sunset")] else []) :=
  duplicate_resolver_canonical _ _ "p1" "Sunset" "Trip"
    ["Auto Upload", "Trip"] ["Auto Upload"] []
    (by simp) (by simp)
    (Or.inr (Or.inl ⟨by simp, by simp, by simp⟩))
    (by simp [lookupTitle])

/-! ## Completion Verifier (`verification/checker.py`) -/

/-- The verifier's own recomputation of an item's primary album
(`_calculate_cross_album_duplicates` inner loop): the first location that
does NOT start with "Auto Upload" — a prefix test, unlike the resolver's
equality test — with Python falsiness: an empty-string winner also falls
back to `locations[0]`. -/
def verifierPrimary (locations : List String) : Option String :=
  match locations.find? (fun l => !(pyStarts l "Auto Upload")) with
  | some a => if a = "" then locations.head? else some a
  | none => locations.head?

/-- One `photo_id`'s contribution to `duplicates_in_other_albums`. -/
def calcContribution (albumTitle : String) (locations : List String) : Nat :=
  if 1 < locations.length ∧ albumTitle ∈ locations then
    match verifierPrimary locations with
    | some pa => if albumTitle ≠ pa then 1 else 0
    | none => 0
  else 0

/-- `_calculate_cross_album_duplicates`: sum of contributions over the
`duplicates_info` mapping. -/
def calcCrossAlbumDuplicates (dupinfo : List (String × List String))
    (albumTitle : String) : Nat :=
  (dupinfo.map (fun e => calcContribution albumTitle e.2)).sum

/-- C4 counterexample: for an album literally named "Auto UploadX" that
shares photo `p1` with "Trip", the resolver's canonical album is
"Auto UploadX" itself (equality test), yet the verifier still subtracts
the item from that album's expected count (prefix test), contradicting
the claimed agreement. -/
theorem verifier_resolver_agreement_cex :
    calcCrossAlbumDuplicates [("p1", ["Auto UploadX", "Trip"])] "Auto UploadX" = 1 ∧
      canonicalAlbum ["Auto UploadX", "Trip"] = some "Auto UploadX" := by
  constructor
  · decide
  · decide

lemma find?_congr_pred {l : List String} {p q : String → Bool}
    (h : ∀ x ∈ l, p x = q x) : l.find? p = l.find? q := by
  induction l with
  | nil => rfl
  | cons a as ih =>
    have ha := h a (by simp)
    simp only [List.find?_cons, ha]
    cases hq : q a with
    | true => rfl
    | false => exact ih (fun x hx => h x (by simp [hx]))

lemma pyStarts_self (s : String) : pyStarts s s = true := by
  unfold pyStarts
  induction s.toList with
  | nil => rfl
  | cons c cs ih => simp [chStarts, ih]

/-- C4 amended.  The verifier's expected-count adjustment subtracts a
duplicated item from album `A` exactly when the canonical album of the
Duplicate Resolver differs from `A`, PROVIDED no containing album has the
empty name and every containing album whose name starts with
"Auto Upload" is exactly "Auto Upload".  (The unrestricted claim fails:
the verifier uses a `startswith("Auto Upload")` prefix test where the
resolver uses an equality test, see `verifier_resolver_agreement_cex`.) -/
theorem verifier_resolver_agreement (albumTitle : String) (locations : List String)
    (hlen : 1 < locations.length)
    (hmem : albumTitle ∈ locations)
    (hstartsExact : ∀ l ∈ locations, pyStarts l "Auto Upload" = true → l = "Auto Upload")
    (hne : "" ∉ locations) :
    calcContribution albumTitle locations =
      if canonicalAlbum locations = some albumTitle then 0 else 1 := by
  have hfind : locations.find? (fun l => !(pyStarts l "Auto Upload"))
      = locations.find? (fun a => a != "Auto Upload") := by
    apply find?_congr_pred
    intro x hx
    cases hst : pyStarts x "Auto Upload" with
    | true => simp [hstartsExact x hx hst]
    | false =>
      have : x ≠ "Auto Upload" := by
        intro hxx
        rw [hxx] at hst
        rw [pyStarts_self] at hst
        exact Bool.noConfusion hst
      simp [this]
  have hvp : verifierPrimary locations = canonicalAlbum locations := by
    unfold verifierPrimary canonicalAlbum primaryAlbum
    rw [hfind, if_pos hlen]
    cases hf : locations.find? (fun a => a != "Auto Upload") with
    | none => rfl
    | some a =>
      have hamem : a ∈ locations := List.mem_of_find?_eq_some hf
      have : a ≠ "" := fun habs => hne (habs ▸ hamem)
      simp [this]
  unfold calcContribution
  rw [if_pos ⟨hlen, hmem⟩, hvp]
  cases hc : canonicalAlbum locations with
  | none =>
    exfalso
    unfold canonicalAlbum at hc
    rw [if_pos hlen] at hc
    unfold primaryAlbum at hc
    cases hf : locations.find? (fun a => a != "Auto Upload") with
    | some a => rw [hf] at hc; exact Option.noConfusion hc
    | none =>
      rw [hf] at hc
      cases hl : locations with
      | nil => rw [hl] at hlen; simp at hlen
      | cons b bs => rw [hl] at hc; simp at hc
  | some pa =>
    by_cases hpa : albumTitle = pa
    · simp [hpa]
    · simp [hpa, Ne.symm hpa]

/-- C4 amended witness: "Trip" and "Auto Upload" share an item; the
verifier subtracts it from "Auto Upload" (whose canonical album is
"Trip") — concretely, contribution 1. -/
theorem verifier_resolver_agreement_witness :
    calcContribution "Auto Upload" ["Auto Upload", "Trip"] =
      if canonicalAlbum ["Auto Upload", "Trip"] = some "Auto Upload" then 0 else 1 :=
  verifier_resolver_agreement "Auto Upload" ["Auto Upload", "Trip"]
    (by decide) (by decide) (by decide) (by decide)

/-! ## Filesystem and progress-set model

Paths are `<download-root>/<album-folder>/<file-name>`; the root is a
fixed configuration constant, so a path is the pair (folder, name).
The filesystem maps each existing path to its byte size. -/

structure FilePath₀ where
  folder : String
  name : String
  deriving DecidableEq, Repr

/-- The filesystem: existing files with their sizes (`os.path.getsize`). -/
abbrev FS := List (FilePath₀ × Nat)

def fsLookup (fs : FS) (p : FilePath₀) : Option Nat :=
  (fs.find? (fun e => e.1 = p)).map Prod.snd

/-- `os.path.exists`. -/
def fsExists (fs : FS) (p : FilePath₀) : Bool := (fsLookup fs p).isSome

/-- `open(path, 'wb')` + write: replaces any file at `p` with `n` bytes. -/
def fsWrite (fs : FS) (p : FilePath₀) (n : Nat) : FS :=
  (fs.filter (fun e => !(e.1 = p : Bool))) ++ [(p, n)]

/-- `os.remove` (the source guards it with `os.path.exists`, making it
total like this filter). -/
def fsRemove (fs : FS) (p : FilePath₀) : FS :=
  fs.filter (fun e => !(e.1 = p : Bool))

/-- `not os.listdir(album_folder)`: no file under this album's folder. -/
def dirEmpty (fs : FS) (folder : String) : Bool :=
  fs.all (fun e => !(e.1.folder = folder : Bool))

/-- `downloaded_ids.add(pid)` (Python set semantics: no duplicates). -/
def progAdd (l : List String) (pid : String) : List String :=
  if pid ∈ l then l else l ++ [pid]

/-- `downloaded_ids.difference_update(ids)`. -/
def progDiff (l ids : List String) : List String :=
  l.filter (fun x => !(x ∈ ids : Bool))

/-- `_evaluate_verification_results`: the decision given the derived
expected and actual local counts.  The album's photo-id set comes from
`album_photos`; the progress set and the filesystem are threaded so that
the (absence of) mutation is visible: the source performs no filesystem
operation in any branch, and touches `downloaded_ids` only in the
`difference > 0` branch.  Counts are `Int` because the expected count has
cross-album duplicates subtracted. -/
def evaluateVerificationResults (expected actual : Int)
    (albumPhotoIds : List String) (downloadedIds : List String) (fs : FS) :
    Bool × List String × FS :=
  let difference := expected - actual
  if 0 < difference then
    (false, progDiff downloadedIds albumPhotoIds, fs)
  else if difference = 0 then
    (true, downloadedIds, fs)
  else
    (true, downloadedIds, fs)

/-- C3.  Completion Verifier decision: `expected > actual` fails and
removes from the Progress Set exactly this album's ids (an id survives
iff it was present and is not listed in the album), leaving the
filesystem alone; `expected == actual` and `expected < actual` both pass
and mutate neither the Progress Set nor the filesystem (no local file is
ever deleted). -/
theorem completion_verifier_decision (expected actual : Int)
    (albumIds downloaded : List String) (fs : FS) :
    (actual < expected →
       evaluateVerificationResults expected actual albumIds downloaded fs
         = (false, progDiff downloaded albumIds, fs) ∧
       (∀ x, x ∈ progDiff downloaded albumIds ↔ x ∈ downloaded ∧ x ∉ albumIds)) ∧
    (expected = actual →
       evaluateVerificationResults expected actual albumIds downloaded fs
         = (true, downloaded, fs)) ∧
    (expected < actual →
       evaluateVerificationResults expected actual albumIds downloaded fs
         = (true, downloaded, fs)) := by
  refine ⟨fun hlt => ⟨?_, ?_⟩, fun heq => ?_, fun hgt => ?_⟩
  · unfold evaluateVerificationResults
    rw [if_pos (by omega)]
  · intro x
    unfold progDiff
    simp [List.mem_filter]
  · unfold evaluateVerificationResults
    rw [if_neg (by omega), if_pos (by omega)]
  · unfold evaluateVerificationResults
    rw [if_neg (by omega), if_neg (by omega)]

/-- C3 witness: expected 10 vs actual 7 fails and strips exactly the
album's ids (`a1`,`a2`) from the progress set, leaving `b1`; expected 10
vs actual 10 passes untouched. -/
theorem completion_verifier_decision_witness :
    (evaluateVerificationResults 10 7 ["a1", "a2"] ["a1", "b1", "a2"] []
       = (false, progDiff ["a1", "b1", "a2"] ["a1", "a2"], []) ∧
     (∀ x, x ∈ progDiff ["a1", "b1", "a2"] ["a1", "a2"] ↔
        x ∈ ["a1", "b1", "a2"] ∧ x ∉ ["a1", "a2"])) ∧
    evaluateVerificationResults 10 10 ["a1", "a2"] ["a1", "b1", "a2"] []
      = (true, ["a1", "b1", "a2"], []) :=
  ⟨(completion_verifier_decision 10 7 ["a1", "a2"] ["a1", "b1", "a2"] []).1 (by decide),
   (completion_verifier_decision 10 10 ["a1", "a2"] ["a1", "b1", "a2"] []).2.1 rfl⟩

/-! ## Rate-Limited Remote Caller (`api/client.py`, `call_with_retries`;
identical retry structure in `flickr_api_call_with_retries`)

The attempt loop is `for attempt in range(1, MAX_RETRIES + 1)`.  The
remote operation is modelled as a map from attempt number to outcome;
sleeps and the backoff accumulator never influence control flow (the
backoff value is only slept on) and are not modelled. -/

inductive CallOutcome (α : Type) where
  | success (v : α)
  | flickrError (code : Option Nat)
  | networkError
  deriving DecidableEq, Repr

/-- Any except-branch outcome: the loop continues on every one of them. -/
def CallOutcome.isFailure {α : Type} : CallOutcome α → Bool
  | .success _ => false
  | _ => true

/-- The claim's "retryable signal": rate limit or server busy
(`code in [429, 503]`) or a network/timeout error. -/
def CallOutcome.retryableSignal {α : Type} : CallOutcome α → Bool
  | .flickrError (some c) => c == 429 || c == 503
  | .networkError => true
  | _ => false

/-- One iteration per remaining attempt; runs out into the
`RuntimeError` raised after the loop. -/
def callAux {α : Type} (maxRetries : Nat) (ops : Nat → CallOutcome α) :
    Nat → Nat → Except String α
  | _, 0 => .error ("API call failed after " ++ toString maxRetries ++ " retries.")
  | attempt, rem + 1 =>
    match ops attempt with
    | .success v => .ok v
    | _ => callAux maxRetries ops (attempt + 1) rem

/-- `call_with_retries`: attempts `1 .. MAX_RETRIES`, returning the first
success, retrying (after a backoff sleep) on every `FlickrError` and
every network/timeout error, and raising once the budget is exhausted. -/
def callWithRetries {α : Type} (maxRetries : Nat) (ops : Nat → CallOutcome α) :
    Except String α :=
  callAux maxRetries ops 1 maxRetries

/-! ## Download Scheduler (`download/manager.py`) -/

inductive MediaType where
  | photo
  | video
  deriving DecidableEq, Repr

/-- The value cached under `"<photo_id>_info"`; the display-only
`selected_info` string does not influence behaviour and is omitted. -/
structure UrlInfo where
  url : String
  media_type : MediaType
  deriving DecidableEq, Repr

abbrev UrlCache := List (String × UrlInfo)

def cacheKey (pid : String) : String := pid ++ "_info"

/-- The remote service and the HTTP transfer primitive as a deterministic
environment: `media` is `photos.getInfo`'s media field, `sizes` is
`photos.getSizes`, `fetch` yields (content-type, byte count) for a URL or
`none` for a network error. -/
structure RemoteEnv where
  media : String → MediaType
  sizes : String → List Size
  fetch : String → Option (String × Nat)

/-- The configuration bit the scheduler consults (`DOWNLOAD_VIDEO`). -/
structure Config₀ where
  downloadVideo : Bool

/-- Kind dispatch in `get_original_url_and_info`. -/
def candidatesFor (mt : MediaType) (sizes : List Size) : List Cand :=
  match mt with
  | .video => videoCandidates sizes
  | .photo => photoCandidates sizes

/-- `get_original_url_and_info`: cache hit short-circuits; a video item
with video downloads disabled yields `None`; otherwise the Quality
Selector runs and a successful selection is appended to the cache (and
persisted); a failed selection yields `None` and caches nothing. -/
def getOriginalUrlAndInfo (env : RemoteEnv) (cfg : Config₀) (pid : String)
    (cache : UrlCache) : Option UrlInfo × UrlCache :=
  match cache.find? (fun e => e.1 == cacheKey pid) with
  | some e => (some e.2, cache)
  | none =>
    let mt := env.media pid
    if mt = .video ∧ ¬ cfg.downloadVideo then (none, cache)
    else
      match selectBest (candidatesFor mt (env.sizes pid)) with
      | none => (none, cache)
      | some c => (some ⟨c.url, mt⟩, cache ++ [(cacheKey pid, ⟨c.url, mt⟩)])

/-- `os.path.basename`-like part of `os.path.splitext`: characters after
the last `/`. -/
def basenameChars (cs : List Char) : List Char :=
  cs.foldl (fun acc c => if c = '/' then [] else acc ++ [c]) []

/-- Suffix from the last `.` (the dot included), `[]` when there is none. -/
def extFromLast : List Char → List Char
  | [] => []
  | c :: rest =>
    let e := extFromLast rest
    if e.isEmpty then (if c = '.' then c :: rest else []) else e

/-- `os.path.splitext(s)[1]`: the extension of the basename, where the
basename's leading dots never start an extension. -/
def splitextExt (s : String) : String :=
  let b := basenameChars s.toList
  String.mk (extFromLast (b.dropWhile (fun c => c = '.')))

/-- `os.path.splitext` applied to a file name (no separators):
(root, extension). -/
def splitName (name : String) : String × String :=
  let e := String.mk (extFromLast (name.toList.dropWhile (fun c => c = '.')))
  (String.mk (name.toList.take (name.toList.length - e.toList.length)), e)

/-- One enqueued download (`(photo_id, url, filepath, media_type)`). -/
structure DlTask where
  pid : String
  url : String
  path : FilePath₀
  media : MediaType
  deriving DecidableEq, Repr

/-- Accumulator of `_prepare_download_tasks`; `failed` counts the
`except`-clause of the per-item loop, which a total model never enters. -/
structure PrepState where
  tasks : List DlTask
  skipped : Nat
  failed : Nat
  progress : List String
  cache : UrlCache
  deriving DecidableEq, Repr

/-- The extension chosen in `_prepare_download_tasks`: the URL's
extension, a kind-based default when absent, and `.mp4` when a video
carries an image extension. -/
def targetExt (info : UrlInfo) : String :=
  let ext0 := splitextExt info.url
  if ext0 = "" then (if info.media_type = .video then ".mp4" else ".jpg")
  else if info.media_type = .video ∧ pyLower ext0 ∈ [".jpg", ".jpeg", ".png"] then ".mp4"
  else ext0

/-- `filepath = os.path.join(album_folder, f"{safe_title}_{photo_id}{ext}")`. -/
def targetPath (folder : String) (item : String × String) (info : UrlInfo) : FilePath₀ :=
  ⟨folder, sanitizeFilename item.2 ++ "_" ++ item.1 ++ targetExt info⟩

/-- One iteration of the `_prepare_download_tasks` loop. -/
def prepareStep (env : RemoteEnv) (cfg : Config₀) (folder : String) (fs : FS)
    (st : PrepState) (item : String × String) : PrepState :=
  if item.1 ∈ st.progress then
    { st with skipped := st.skipped + 1 }
  else
    match getOriginalUrlAndInfo env cfg item.1 st.cache with
    | (none, c) => { st with cache := c, skipped := st.skipped + 1 }
    | (some info, c) =>
      if fsExists fs (targetPath folder item info) then
        { st with cache := c, skipped := st.skipped + 1,
                  progress := progAdd st.progress item.1 }
      else
        { st with cache := c,
                  tasks := st.tasks ++
                    [⟨item.1, info.url, targetPath folder item info, info.media_type⟩] }

/-- `_prepare_download_tasks` (the filesystem is read, never written). -/
def prepareDownloadTasks (env : RemoteEnv) (cfg : Config₀) (folder : String)
    (fs : FS) (items : List (String × String)) (progress : List String)
    (cache : UrlCache) : PrepState :=
  items.foldl (prepareStep env cfg folder fs) ⟨[], 0, 0, progress, cache⟩

/-- Extension correction from the actual response content type
(`download_file`).  The source lowercases the header first. -/
def contentExt (ctype : String) (mt : MediaType) : String :=
  if pyIn "video" ctype || (mt = .video : Bool) then
    (if pyIn "mp4" ctype then ".mp4"
     else if pyIn "mov" ctype || pyIn "quicktime" ctype then ".mov"
     else ".mp4")
  else if pyIn "image" ctype then
    (if pyIn "jpeg" ctype || pyIn "jpg" ctype then ".jpg"
     else if pyIn "png" ctype then ".png"
     else if pyIn "gif" ctype then ".gif"
     else ".jpg")
  else
    (if mt = .video then ".mp4" else ".jpg")

/-- `download_file`: fetch, correct the extension against the delivered
content type (renaming the target), stream the body to disk; a network
error becomes a tagged error value, never an escaped exception. -/
def downloadFile (env : RemoteEnv) (url : String) (path : FilePath₀)
    (mt : MediaType) (fs : FS) : FS × Except String FilePath₀ :=
  match env.fetch url with
  | none => (fs, .error ("ERROR: " ++ path.name ++ " - network error"))
  | some (rawCtype, nbytes) =>
    let ctype := pyLower rawCtype
    let correctExt := contentExt ctype mt
    let pair := splitName path.name
    let path2 : FilePath₀ :=
      if pyLower pair.2 ≠ pyLower correctExt then ⟨path.folder, pair.1 ++ correctExt⟩
      else path
    (fsWrite fs path2 nbytes, .ok path2)

/-- Accumulator of `_execute_downloads`. -/
structure ExecState where
  fs : FS
  progress : List String
  downloaded : Nat
  failed : Nat
  deriving DecidableEq, Repr

/-- Handling of one completed task in `_execute_downloads`: an error
counts as failed; a reported success is verified (file exists, non-zero
size) before the id enters the Progress Set, an empty artifact being
removed and counted as failed. -/
def executeStep (env : RemoteEnv) (st : ExecState) (t : DlTask) : ExecState :=
  match downloadFile env t.url t.path t.media st.fs with
  | (fs1, .error _) => { st with fs := fs1, failed := st.failed + 1 }
  | (fs1, .ok p) =>
    if 0 < (fsLookup fs1 p).getD 0 then
      { st with fs := fs1, downloaded := st.downloaded + 1,
                progress := progAdd st.progress t.pid }
    else
      { st with fs := fsRemove fs1 p, failed := st.failed + 1 }

/-- `_execute_downloads`; the worker pool yields results in arbitrary
completion order, of which submission order is the linearization taken
here (result aggregation happens on the driving thread in the source). -/
def executeDownloads (env : RemoteEnv) (tasks : List DlTask) (fs : FS)
    (progress : List String) : ExecState :=
  tasks.foldl (executeStep env) ⟨fs, progress, 0, 0⟩

/-- The mutable state `process_downloads` touches: the filesystem, the
shared `downloaded_ids` set and the shared URL cache. -/
structure AppState where
  fs : FS
  progress : List String
  cache : UrlCache
  deriving DecidableEq, Repr

/-- The per-album summary dict `process_downloads` returns. -/
structure AlbumSummary where
  album : String
  downloaded : Nat
  skipped : Nat
  failed : Nat
  deriving DecidableEq, Repr

/-- The "album directory exists but is empty" reset at the top of
`process_downloads`: it strips the current work list's ids from the
shared `downloaded_ids` set to force a re-download. -/
def resetProgress (st : AppState) (albumTitle : String)
    (photoIds : List (String × String)) : List String :=
  if dirEmpty st.fs albumTitle && !photoIds.isEmpty then
    progDiff st.progress (photoIds.map Prod.fst)
  else st.progress

/-- `process_downloads` for one album: the empty-directory reset of the
progress set, task preparation, concurrent execution, and the summary.
The directory-writability probe always succeeds in the model, and the
album folder equals the album title (under the fixed download root). -/
def processDownloads (env : RemoteEnv) (cfg : Config₀) (albumTitle : String)
    (photoIds : List (String × String)) (st : AppState) :
    AppState × AlbumSummary :=
  let p := prepareDownloadTasks env cfg albumTitle st.fs photoIds
    (resetProgress st albumTitle photoIds) st.cache
  if p.tasks.isEmpty then
    (⟨st.fs, p.progress, p.cache⟩, ⟨albumTitle, 0, p.skipped, p.failed⟩)
  else
    let e := executeDownloads env p.tasks st.fs p.progress
    (⟨e.fs, e.progress, p.cache⟩, ⟨albumTitle, e.downloaded, p.skipped, p.failed + e.failed⟩)

/-! ## Claims C7 and C8: the retry loop -/

lemma retryable_isFailure {α : Type} {o : CallOutcome α}
    (h : o.retryableSignal = true) : o.isFailure = true := by
  cases o with
  | success v => simp [CallOutcome.retryableSignal] at h
  | flickrError c => simp [CallOutcome.isFailure]
  | networkError => simp [CallOutcome.isFailure]

lemma callAux_ok {α : Type} (mR : Nat) (ops : Nat → CallOutcome α) (v : α) :
    ∀ (j attempt rem : Nat),
      (∀ i, attempt ≤ i → i < attempt + j → (ops i).isFailure = true) →
      ops (attempt + j) = .success v → j < rem →
      callAux mR ops attempt rem = .ok v := by
  intro j
  induction j with
  | zero =>
    intro attempt rem hf hs hj
    cases rem with
    | zero => omega
    | succ r =>
      have hs' : ops attempt = .success v := by simpa using hs
      simp [callAux, hs']
  | succ jj ih =>
    intro attempt rem hf hs hj
    cases rem with
    | zero => omega
    | succ r =>
      have hfa : (ops attempt).isFailure = true := hf attempt le_rfl (by omega)
      have hstep : callAux mR ops attempt (r + 1) = callAux mR ops (attempt + 1) r := by
        cases ho : ops attempt with
        | success w => rw [ho] at hfa; simp [CallOutcome.isFailure] at hfa
        | flickrError c => simp [callAux, ho]
        | networkError => simp [callAux, ho]
      rw [hstep]
      apply ih (attempt + 1) r
      · intro i h1 h2
        exact hf i (by omega) (by omega)
      · have : attempt + 1 + jj = attempt + (jj + 1) := by omega
        rw [this]
        exact hs
      · omega

lemma callAux_exhaust {α : Type} (mR : Nat) (ops : Nat → CallOutcome α) :
    ∀ (rem attempt : Nat),
      (∀ i, attempt ≤ i → i < attempt + rem → (ops i).isFailure = true) →
      callAux mR ops attempt rem
        = .error ("API call failed after " ++ toString mR ++ " retries.") := by
  intro rem
  induction rem with
  | zero => intro attempt hf; rfl
  | succ r ih =>
    intro attempt hf
    have hfa : (ops attempt).isFailure = true := hf attempt le_rfl (by omega)
    have hstep : callAux mR ops attempt (r + 1) = callAux mR ops (attempt + 1) r := by
      cases ho : ops attempt with
      | success w => rw [ho] at hfa; simp [CallOutcome.isFailure] at hfa
      | flickrError c => simp [callAux, ho]
      | networkError => simp [callAux, ho]
    rw [hstep]
    exact ih (attempt + 1) (fun i h1 h2 => hf i (by omega) (by omega))

/-- C7.  Rate-Limited Caller retry semantics: an operation failing with a
retryable signal on attempts `1..k` (`k` below the budget) and succeeding
on attempt `k+1` makes `call_with_retries` return that success; the
attempt budget is never exceeded (outcomes beyond attempt `maxRetries`
are irrelevant); and an operation failing on every budgeted attempt makes
it raise the terminal "failed after MAX_RETRIES retries" error. -/
theorem rate_limited_caller_retry {α : Type} (maxRetries k : Nat)
    (ops : Nat → CallOutcome α) (v : α)
    (hfail : ∀ i, 1 ≤ i → i ≤ k → (ops i).retryableSignal = true)
    (hk : k < maxRetries)
    (hsucc : ops (k + 1) = .success v) :
    callWithRetries maxRetries ops = .ok v ∧
    (∀ ops2 : Nat → CallOutcome α, (∀ i, 1 ≤ i → i ≤ maxRetries → ops2 i = ops i) →
        callWithRetries maxRetries ops2 = .ok v) ∧
    (∀ ops3 : Nat → CallOutcome α,
        (∀ i, 1 ≤ i → i ≤ maxRetries → (ops3 i).isFailure = true) →
        callWithRetries maxRetries ops3
          = .error ("API call failed after " ++ toString maxRetries ++ " retries.")) := by
  refine ⟨?_, ?_, ?_⟩
  · exact callAux_ok maxRetries ops v k 1 maxRetries
      (fun i h1 h2 => retryable_isFailure (hfail i h1 (by omega)))
      (by rw [Nat.add_comm]; exact hsucc) hk
  · intro ops2 hsame
    apply callAux_ok maxRetries ops2 v k 1 maxRetries
    · intro i h1 h2
      rw [hsame i h1 (by omega)]
      exact retryable_isFailure (hfail i h1 (by omega))
    · rw [Nat.add_comm, hsame (k + 1) (by omega) (by omega)]
      exact hsucc
    · exact hk
  · intro ops3 hf
    exact callAux_exhaust maxRetries ops3 maxRetries 1
      (fun i h1 h2 => hf i h1 (by omega))

/-- The fixture for C7's witness: two rate-limit failures, then success. -/
def opsTwoRateLimits : Nat → CallOutcome String :=
  fun i => if i ≤ 2 then .flickrError (some 429) else .success "r"

/-- C7 witness: with budget 5, two 429 failures then a success return the
success result. -/
theorem rate_limited_caller_retry_witness :
    callWithRetries 5 opsTwoRateLimits = .ok "r" :=
  (rate_limited_caller_retry 5 2 opsTwoRateLimits "r"
    (by
      intro i h1 h2
      rcases (by omega : i = 1 ∨ i = 2) with h | h <;> subst h <;> decide)
    (by decide) (by decide)).1

/-- The fixture for C8: the first failure is a non-transient API error
(code 404 — neither 429 nor 503 nor a network error). -/
def opsNonTransient : Nat → CallOutcome String :=
  fun i => if i = 1 then .flickrError (some 404) else .success "v"

/-- C8 counterexample: the first failure is non-transient, yet
`call_with_retries` retries and returns attempt 2's success instead of
propagating the failure immediately — every `FlickrError` falls into the
retry path. -/
theorem non_transient_propagation_cex :
    (opsNonTransient 1).retryableSignal = false ∧
    (opsNonTransient 1).isFailure = true ∧
    callWithRetries 5 opsNonTransient = .ok "v" :=
  ⟨by decide, by decide, rfl⟩

/-- C8 amended: a first failure that is NOT retryable is treated exactly
like a transient one — the caller sleeps and retries, so a success on
attempt 2 (within budget) is returned; no failure propagates
immediately. -/
theorem non_transient_retried {α : Type} (maxRetries : Nat)
    (ops : Nat → CallOutcome α) (v : α)
    (h1 : (ops 1).isFailure = true)
    (h2 : ops 2 = .success v)
    (hm : 2 ≤ maxRetries) :
    callWithRetries maxRetries ops = .ok v := by
  apply callAux_ok maxRetries ops v 1 1 maxRetries
  · intro i hi1 hi2
    have : i = 1 := by omega
    subst this
    exact h1
  · exact h2
  · omega

/-- C8 amended witness. -/
theorem non_transient_retried_witness :
    callWithRetries 5 opsNonTransient = .ok "v" :=
  non_transient_retried 5 opsNonTransient "v" (by decide) (by decide) (by decide)

/-! ## Claim C9: empty candidate lists are skipped, not failed -/

/-- C9.  An item whose filtered candidate list is empty (not in the URL
cache, so the Quality Selector actually runs): `get_original_url_and_info`
returns `None` — a plain return value, no exception escapes the
`Option`-typed model — caching nothing, and the scheduler's preparation
loop counts the item as skipped, leaving the failed count, the task list,
the progress set and the cache unchanged. -/
theorem empty_candidates_skipped (env : RemoteEnv) (cfg : Config₀)
    (folder : String) (fs : FS) (st : PrepState) (pid title : String)
    (hnp : pid ∉ st.progress)
    (hmiss : st.cache.find? (fun e => e.1 == cacheKey pid) = none)
    (hempty : candidatesFor (env.media pid) (env.sizes pid) = []) :
    getOriginalUrlAndInfo env cfg pid st.cache = (none, st.cache) ∧
    prepareStep env cfg folder fs st (pid, title)
      = { st with skipped := st.skipped + 1 } := by
  have hres : getOriginalUrlAndInfo env cfg pid st.cache = (none, st.cache) := by
    unfold getOriginalUrlAndInfo
    rw [hmiss]
    by_cases hv : env.media pid = .video ∧ ¬ cfg.downloadVideo
    · simp only [if_pos hv]
    · simp only [if_neg hv]
      rw [hempty]
      rfl
  refine ⟨hres, ?_⟩
  unfold prepareStep
  simp only [if_neg hnp, hres]

/-- Environment for C9's witness: a photo item the service reports no
sizes for. -/
def envNoSizes : RemoteEnv := ⟨fun _ => .photo, fun _ => [], fun _ => none⟩

/-- Video downloads enabled. -/
def cfgVideo : Config₀ := ⟨true⟩

/-- Video downloads disabled. -/
def cfgNoVideo : Config₀ := ⟨false⟩

/-- C9 witness: a no-candidate item is skipped (counts 0→1 skipped,
0 failed), with nothing cached. -/
theorem empty_candidates_skipped_witness :
    getOriginalUrlAndInfo envNoSizes cfgVideo "p1" [] = (none, []) ∧
    prepareStep envNoSizes cfgVideo "A" [] ⟨[], 0, 0, [], []⟩ ("p1", "t")
      = ⟨[], 1, 0, [], []⟩ :=
  empty_candidates_skipped envNoSizes cfgVideo "A" [] ⟨[], 0, 0, [], []⟩ "p1" "t"
    (by decide) rfl rfl

/-! ## Claim C5: what adding to the Progress Set requires -/

lemma mem_progAdd_iff {l : List String} {pid x : String} :
    x ∈ progAdd l pid ↔ x ∈ l ∨ x = pid := by
  unfold progAdd
  split_ifs with h
  · constructor
    · exact Or.inl
    · rintro (hx | rfl)
      · exact hx
      · exact h
  · simp [List.mem_append]

lemma mem_progAdd_of_mem {l : List String} {pid x : String} (h : x ∈ l) :
    x ∈ progAdd l pid := mem_progAdd_iff.mpr (Or.inl h)

lemma executeStep_error {env : RemoteEnv} {st : ExecState} {t : DlTask}
    {fs1 : FS} {e : String}
    (h : downloadFile env t.url t.path t.media st.fs = (fs1, .error e)) :
    executeStep env st t = { st with fs := fs1, failed := st.failed + 1 } := by
  unfold executeStep
  rw [h]

lemma executeStep_ok {env : RemoteEnv} {st : ExecState} {t : DlTask}
    {fs1 : FS} {p : FilePath₀}
    (h : downloadFile env t.url t.path t.media st.fs = (fs1, .ok p)) :
    executeStep env st t =
      if 0 < (fsLookup fs1 p).getD 0 then
        { st with fs := fs1, downloaded := st.downloaded + 1,
                  progress := progAdd st.progress t.pid }
      else
        { st with fs := fsRemove fs1 p, failed := st.failed + 1 } := by
  unfold executeStep
  rw [h]

/-- Exhaustive case analysis of one prepare-loop iteration. -/
lemma prepareStep_cases (env : RemoteEnv) (cfg : Config₀) (folder : String)
    (fs : FS) (st : PrepState) (item : String × String) :
    (item.1 ∈ st.progress ∧
      prepareStep env cfg folder fs st item = { st with skipped := st.skipped + 1 }) ∨
    (item.1 ∉ st.progress ∧ ∃ c,
      getOriginalUrlAndInfo env cfg item.1 st.cache = (none, c) ∧
      prepareStep env cfg folder fs st item
        = { st with cache := c, skipped := st.skipped + 1 }) ∨
    (item.1 ∉ st.progress ∧ ∃ info c,
      getOriginalUrlAndInfo env cfg item.1 st.cache = (some info, c) ∧
      fsExists fs (targetPath folder item info) = true ∧
      prepareStep env cfg folder fs st item
        = { st with cache := c, skipped := st.skipped + 1,
                    progress := progAdd st.progress item.1 }) ∨
    (item.1 ∉ st.progress ∧ ∃ info c,
      getOriginalUrlAndInfo env cfg item.1 st.cache = (some info, c) ∧
      fsExists fs (targetPath folder item info) = false ∧
      prepareStep env cfg folder fs st item
        = { st with cache := c,
                    tasks := st.tasks ++
                      [⟨item.1, info.url, targetPath folder item info, info.media_type⟩] }) := by
  by_cases hmem : item.1 ∈ st.progress
  · exact Or.inl ⟨hmem, by unfold prepareStep; rw [if_pos hmem]⟩
  · cases hg : getOriginalUrlAndInfo env cfg item.1 st.cache with
    | mk info? c =>
      cases info? with
      | none =>
        refine Or.inr (Or.inl ⟨hmem, c, rfl, ?_⟩)
        unfold prepareStep
        rw [if_neg hmem, hg]
      | some info =>
        cases hb : fsExists fs (targetPath folder item info) with
        | true =>
          refine Or.inr (Or.inr (Or.inl ⟨hmem, info, c, rfl, hb, ?_⟩))
          unfold prepareStep
          rw [if_neg hmem, hg]
          exact if_pos hb
        | false =>
          refine Or.inr (Or.inr (Or.inr ⟨hmem, info, c, rfl, hb, ?_⟩))
          unfold prepareStep
          rw [if_neg hmem, hg]
          exact if_neg (by simp [hb])

/-- C5 amended.  In the execute phase an id enters the Progress Set only
for the task's own item and only after the verification that the written
file exists with non-zero size; in the PREPARE phase, however, an id is
marked downloaded as soon as a file at the target path exists, with NO
size check (this is where the claim as stated fails, see the
counterexample). -/
theorem progress_addition_verified :
    (∀ (env : RemoteEnv) (st : ExecState) (t : DlTask) (x : String),
        x ∉ st.progress → x ∈ (executeStep env st t).progress →
        x = t.pid ∧ ∃ p n, fsLookup (executeStep env st t).fs p = some n ∧ 0 < n) ∧
    (∀ (env : RemoteEnv) (cfg : Config₀) (folder : String) (fs : FS)
        (st : PrepState) (item : String × String) (x : String),
        x ∉ st.progress → x ∈ (prepareStep env cfg folder fs st item).progress →
        x = item.1 ∧ ∃ p, p.folder = folder ∧ fsExists fs p = true) := by
  constructor
  · intro env st t x hnx hx
    cases hdl : downloadFile env t.url t.path t.media st.fs with
    | mk fs1 r =>
      cases r with
      | error e =>
        rw [executeStep_error hdl] at hx
        exact absurd hx hnx
      | ok p =>
        rw [executeStep_ok hdl] at hx ⊢
        by_cases hsz : 0 < (fsLookup fs1 p).getD 0
        · rw [if_pos hsz] at hx ⊢
          rcases mem_progAdd_iff.mp hx with hx | hx
          · exact absurd hx hnx
          · refine ⟨hx, p, ?_⟩
            cases hlk : fsLookup fs1 p with
            | none => rw [hlk] at hsz; simp at hsz
            | some n =>
              rw [hlk] at hsz
              exact ⟨n, rfl, by simpa using hsz⟩
        · rw [if_neg hsz] at hx
          exact absurd hx hnx
  · intro env cfg folder fs st item x hnx hx
    rcases prepareStep_cases env cfg folder fs st item with
      ⟨_, heq⟩ | ⟨_, c, _, heq⟩ | ⟨_, info, c, _, hex, heq⟩ | ⟨_, info, c, _, _, heq⟩
    · rw [heq] at hx
      exact absurd hx hnx
    · rw [heq] at hx
      exact absurd hx hnx
    · rw [heq] at hx
      rcases mem_progAdd_iff.mp hx with hx | hx
      · exact absurd hx hnx
      · exact ⟨hx, targetPath folder item info, rfl, hex⟩
    · rw [heq] at hx
      exact absurd hx hnx

/-- Environment for C5's witness: fetching any URL delivers a 5-byte
JPEG. -/
def envFetchOk : RemoteEnv := ⟨fun _ => .photo, fun _ => [], fun _ => some ("image/jpeg", 5)⟩

/-- URL cache holding a resolved photo URL for item `p1`. -/
def cacheP1 : UrlCache := [("p1_info", ⟨"u/a.jpg", .photo⟩)]

/-- A filesystem whose only file — the target path of item `p1` — is
empty (0 bytes). -/
def fsZero : FS := [(⟨"A", "t_p1.jpg"⟩, 0)]

/-- C5 counterexample: with the only file on disk EMPTY (0 bytes), the
prepare phase still adds `p1` to the Progress Set — an id is added
without any non-zero-size verification, contradicting the claim that no
code path does so. -/
theorem progress_addition_verified_cex :
    (prepareDownloadTasks envNoSizes cfgVideo "A" fsZero [("p1", "t")] [] cacheP1).progress
      = ["p1"] ∧
    (∀ q ∈ fsZero, q.2 = 0) := by
  constructor
  · rfl
  · decide

/-- C5 amended witness: both add-sites exercised — a verified non-empty
download in the execute phase, and an existing (here: empty) file in the
prepare phase. -/
theorem progress_addition_verified_witness :
    (("p1" : String) = (DlTask.mk "p1" "u" ⟨"A", "t_p1.jpg"⟩ .photo).pid ∧
      ∃ p n, fsLookup (executeStep envFetchOk ⟨[], [], 0, 0⟩
        (DlTask.mk "p1" "u" ⟨"A", "t_p1.jpg"⟩ .photo)).fs p = some n ∧ 0 < n) ∧
    (("p1" : String) = (("p1", "t") : String × String).1 ∧
      ∃ p : FilePath₀, p.folder = "A" ∧ fsExists fsZero p = true) :=
  ⟨progress_addition_verified.1 envFetchOk ⟨[], [], 0, 0⟩
      (DlTask.mk "p1" "u" ⟨"A", "t_p1.jpg"⟩ .photo) "p1" (by decide) (by decide),
   progress_addition_verified.2 envNoSizes cfgVideo "A" fsZero
      ⟨[], 0, 0, [], cacheP1⟩ ("p1", "t") "p1" (by decide) (by decide)⟩

/-! ## Claim C6: who removes from the Progress Set -/

lemma prepareStep_progress_mono {env : RemoteEnv} {cfg : Config₀} {folder : String}
    {fs : FS} {st : PrepState} {item : String × String} {x : String}
    (h : x ∈ st.progress) :
    x ∈ (prepareStep env cfg folder fs st item).progress := by
  rcases prepareStep_cases env cfg folder fs st item with
    ⟨_, heq⟩ | ⟨_, c, _, heq⟩ | ⟨_, info, c, _, _, heq⟩ | ⟨_, info, c, _, _, heq⟩ <;>
    rw [heq]
  · exact h
  · exact h
  · exact mem_progAdd_of_mem h
  · exact h

lemma prepareFold_progress_mono (env : RemoteEnv) (cfg : Config₀) (folder : String)
    (fs : FS) (items : List (String × String)) :
    ∀ (st : PrepState) (x : String), x ∈ st.progress →
      x ∈ (items.foldl (prepareStep env cfg folder fs) st).progress := by
  induction items with
  | nil => intro st x h; exact h
  | cons it its ih =>
    intro st x h
    exact ih (prepareStep env cfg folder fs st it) x (prepareStep_progress_mono h)

lemma executeStep_progress_mono {env : RemoteEnv} {st : ExecState} {t : DlTask}
    {x : String} (h : x ∈ st.progress) :
    x ∈ (executeStep env st t).progress := by
  cases hdl : downloadFile env t.url t.path t.media st.fs with
  | mk fs1 r =>
    cases r with
    | error e => rw [executeStep_error hdl]; exact h
    | ok p =>
      rw [executeStep_ok hdl]
      by_cases hsz : 0 < (fsLookup fs1 p).getD 0
      · rw [if_pos hsz]; exact mem_progAdd_of_mem h
      · rw [if_neg hsz]; exact h

lemma executeFold_progress_mono (env : RemoteEnv) (tasks : List DlTask) :
    ∀ (st : ExecState) (x : String), x ∈ st.progress →
      x ∈ (tasks.foldl (executeStep env) st).progress := by
  induction tasks with
  | nil => intro st x h; exact h
  | cons t ts ih =>
    intro st x h
    exact ih (executeStep env st t) x (executeStep_progress_mono h)

/-- After the initial reset, the scheduler's progress set only grows. -/
lemma processDownloads_progress_sup (env : RemoteEnv) (cfg : Config₀)
    (album : String) (ids : List (String × String)) (st : AppState) (x : String)
    (hx : x ∈ resetProgress st album ids) :
    x ∈ (processDownloads env cfg album ids st).1.progress := by
  unfold processDownloads
  dsimp only
  have hp := prepareFold_progress_mono env cfg album st.fs ids
    ⟨[], 0, 0, resetProgress st album ids, st.cache⟩ x hx
  split
  · exact hp
  · exact executeFold_progress_mono env _ _ x hp

lemma mem_progDiff_of {l ids : List String} {x : String}
    (hx : x ∈ l) (hni : x ∉ ids) : x ∈ progDiff l ids := by
  unfold progDiff
  rw [List.mem_filter]
  exact ⟨hx, by simpa using hni⟩

/-- C6 amended.  The Download Scheduler does remove ids from the Progress
Set in exactly one situation: the reset at the start of `process_downloads`
when the album directory exists but is empty and the work list is
non-empty — and then only ids of the current work list.  Every other
mutation it performs is an addition (so outside that reset, removal
happens only in the Completion Verifier's failure branch, cf. the C3
theorem). -/
theorem scheduler_removal_only_reset (env : RemoteEnv) (cfg : Config₀)
    (album : String) (ids : List (String × String)) (st : AppState) (x : String)
    (hin : x ∈ st.progress)
    (hout : x ∉ (processDownloads env cfg album ids st).1.progress) :
    dirEmpty st.fs album = true ∧ ids ≠ [] ∧ x ∈ ids.map Prod.fst := by
  by_cases hreset : (dirEmpty st.fs album && !ids.isEmpty) = true
  · have hde : dirEmpty st.fs album = true := by
      cases hd : dirEmpty st.fs album
      · rw [hd] at hreset; simp at hreset
      · rfl
    have hne : ids ≠ [] := by
      intro habs
      subst habs
      simp at hreset
    refine ⟨hde, hne, ?_⟩
    by_contra hxid
    apply hout
    apply processDownloads_progress_sup
    unfold resetProgress
    rw [if_pos hreset]
    exact mem_progDiff_of hin (by simpa using hxid)
  · exfalso
    apply hout
    apply processDownloads_progress_sup
    unfold resetProgress
    rw [if_neg hreset]
    exact hin

/-- Environment for C6's fixtures: every item is a video, with video
downloads disabled (nothing gets downloaded, isolating the reset). -/
def envVideoOnly : RemoteEnv := ⟨fun _ => .video, fun _ => [], fun _ => none⟩

/-- C6 counterexample: `p1` is in the Progress Set before the scheduler
runs, the album directory is empty, and after `process_downloads` the
Progress Set is empty — the Download Scheduler itself removed an id,
contradicting the claim that it never removes any. -/
theorem scheduler_removal_cex :
    "p1" ∈ (["p1"] : List String) ∧
    (processDownloads envVideoOnly cfgNoVideo "A" [("p1", "t")]
        ⟨[], ["p1"], []⟩).1.progress = [] :=
  ⟨by decide, rfl⟩

/-- C6 amended witness: the removal observed in the counterexample indeed
happens under the reset conditions (empty album directory, non-empty work
list, id in the work list). -/
theorem scheduler_removal_only_reset_witness :
    dirEmpty (AppState.mk [] ["p1"] []).fs "A" = true ∧
    ([("p1", "t")] : List (String × String)) ≠ [] ∧
    "p1" ∈ ([("p1", "t")] : List (String × String)).map Prod.fst :=
  scheduler_removal_only_reset envVideoOnly cfgNoVideo "A" [("p1", "t")]
    ⟨[], ["p1"], []⟩ "p1" (by decide) (by decide)

/-! ## Claim C10: scheduler idempotence

The environment being a fixed function already makes the remote service
deterministic across the two runs; the URL cache must agree with it
(which every cache written by `get_original_url_and_info` against this
environment does). -/

/-- The cache-independent value `get_original_url_and_info` resolves for
an item: what the remote service + Quality Selector + video toggle give. -/
def canonUrlInfo (env : RemoteEnv) (cfg : Config₀) (pid : String) : Option UrlInfo :=
  if env.media pid = .video ∧ ¬ cfg.downloadVideo then none
  else (selectBest (candidatesFor (env.media pid) (env.sizes pid))).map
    (fun c => ⟨c.url, env.media pid⟩)

/-- Every `"<pid>_info"` entry of the cache holds exactly what resolving
`pid` against the environment would produce. -/
def CacheConsistent (env : RemoteEnv) (cfg : Config₀) (cache : UrlCache) : Prop :=
  ∀ pid info, (cacheKey pid, info) ∈ cache → canonUrlInfo env cfg pid = some info

lemma cacheKey_inj {a b : String} (h : cacheKey a = cacheKey b) : a = b := by
  have h2 : (a ++ "_info").data = (b ++ "_info").data := congrArg String.data h
  rw [String.data_append, String.data_append] at h2
  have h3 : a.data = b.data := List.append_cancel_right h2
  cases a with
  | mk da =>
    cases b with
    | mk db => exact congrArg String.mk (by simpa using h3)

lemma getUrl_spec (env : RemoteEnv) (cfg : Config₀) (pid : String)
    (cache : UrlCache) (h : CacheConsistent env cfg cache) :
    (getOriginalUrlAndInfo env cfg pid cache).1 = canonUrlInfo env cfg pid ∧
    CacheConsistent env cfg (getOriginalUrlAndInfo env cfg pid cache).2 ∧
    (canonUrlInfo env cfg pid = none →
      getOriginalUrlAndInfo env cfg pid cache = (none, cache)) := by
  cases hf : cache.find? (fun e => e.1 == cacheKey pid) with
  | some e =>
    have hmem : e ∈ cache := List.mem_of_find?_eq_some hf
    have hkey : e.1 = cacheKey pid := by
      have := List.find?_some hf
      exact eq_of_beq (by simpa using this)
    have hcanon : canonUrlInfo env cfg pid = some e.2 := by
      apply h pid e.2
      have : e = (cacheKey pid, e.2) := by
        rw [← hkey]
      rw [← this]
      exact hmem
    have hres : getOriginalUrlAndInfo env cfg pid cache = (some e.2, cache) := by
      unfold getOriginalUrlAndInfo
      rw [hf]
    rw [hres, hcanon]
    exact ⟨rfl, h, fun habs => Option.noConfusion habs⟩
  | none =>
    by_cases hv : env.media pid = .video ∧ ¬ cfg.downloadVideo
    · have hres : getOriginalUrlAndInfo env cfg pid cache = (none, cache) := by
        unfold getOriginalUrlAndInfo
        rw [hf]
        simp only [if_pos hv]
      have hcanon : canonUrlInfo env cfg pid = none := by
        unfold canonUrlInfo
        simp only [if_pos hv]
      rw [hres, hcanon]
      exact ⟨rfl, h, fun _ => rfl⟩
    · have hcanon : canonUrlInfo env cfg pid
          = (selectBest (candidatesFor (env.media pid) (env.sizes pid))).map
              (fun c => ⟨c.url, env.media pid⟩) := by
        unfold canonUrlInfo
        rw [if_neg hv]
      cases hs : selectBest (candidatesFor (env.media pid) (env.sizes pid)) with
      | none =>
        have hres : getOriginalUrlAndInfo env cfg pid cache = (none, cache) := by
          unfold getOriginalUrlAndInfo
          rw [hf]
          rw [if_neg hv, hs]
        rw [hres, hcanon, hs]
        exact ⟨rfl, h, fun _ => rfl⟩
      | some c =>
        have hres : getOriginalUrlAndInfo env cfg pid cache
            = (some ⟨c.url, env.media pid⟩,
               cache ++ [(cacheKey pid, ⟨c.url, env.media pid⟩)]) := by
          unfold getOriginalUrlAndInfo
          rw [hf]
          rw [if_neg hv, hs]
        rw [hres, hcanon, hs]
        refine ⟨rfl, ?_, fun habs => Option.noConfusion habs⟩
        intro q info hq
        rcases List.mem_append.mp hq with hq | hq
        · exact h q info hq
        · have hq2 : (cacheKey q, info) = (cacheKey pid, (⟨c.url, env.media pid⟩ : UrlInfo)) := by
            simpa using hq
          have hqpid : q = pid := cacheKey_inj (congrArg Prod.fst hq2)
          have hinfo : info = ⟨c.url, env.media pid⟩ := congrArg Prod.snd hq2
          rw [hqpid, hinfo, hcanon, hs]
          rfl

lemma prepareStep_cache_consistent {env : RemoteEnv} {cfg : Config₀}
    {folder : String} {fs : FS} {st : PrepState} {item : String × String}
    (h : CacheConsistent env cfg st.cache) :
    CacheConsistent env cfg (prepareStep env cfg folder fs st item).cache := by
  rcases prepareStep_cases env cfg folder fs st item with
    ⟨_, heq⟩ | ⟨_, c, hg, heq⟩ | ⟨_, info, c, hg, _, heq⟩ | ⟨_, info, c, hg, _, heq⟩ <;>
    rw [heq]
  · exact h
  · have : c = (getOriginalUrlAndInfo env cfg item.1 st.cache).2 := by rw [hg]
    rw [this]
    exact (getUrl_spec env cfg item.1 st.cache h).2.1
  · have : c = (getOriginalUrlAndInfo env cfg item.1 st.cache).2 := by rw [hg]
    rw [this]
    exact (getUrl_spec env cfg item.1 st.cache h).2.1
  · have : c = (getOriginalUrlAndInfo env cfg item.1 st.cache).2 := by rw [hg]
    rw [this]
    exact (getUrl_spec env cfg item.1 st.cache h).2.1

lemma prepareFold_cache_consistent (env : RemoteEnv) (cfg : Config₀)
    (folder : String) (fs : FS) (items : List (String × String)) :
    ∀ (st : PrepState), CacheConsistent env cfg st.cache →
      CacheConsistent env cfg
        (items.foldl (prepareStep env cfg folder fs) st).cache := by
  induction items with
  | nil => intro st h; exact h
  | cons a as ih =>
    intro st h
    exact ih _ (prepareStep_cache_consistent h)

lemma prepareStep_tasks_mono {env : RemoteEnv} {cfg : Config₀} {folder : String}
    {fs : FS} {st : PrepState} {item : String × String} {t : DlTask}
    (h : t ∈ st.tasks) :
    t ∈ (prepareStep env cfg folder fs st item).tasks := by
  rcases prepareStep_cases env cfg folder fs st item with
    ⟨_, heq⟩ | ⟨_, c, _, heq⟩ | ⟨_, info, c, _, _, heq⟩ | ⟨_, info, c, _, _, heq⟩ <;>
    rw [heq]
  · exact h
  · exact h
  · exact h
  · exact List.mem_append.mpr (Or.inl h)

lemma prepareFold_tasks_mono (env : RemoteEnv) (cfg : Config₀) (folder : String)
    (fs : FS) (items : List (String × String)) :
    ∀ (st : PrepState) (t : DlTask), t ∈ st.tasks →
      t ∈ (items.foldl (prepareStep env cfg folder fs) st).tasks := by
  induction items with
  | nil => intro st t h; exact h
  | cons a as ih =>
    intro st t h
    exact ih _ t (prepareStep_tasks_mono h)

/-- Every work-list item ends up (by the end of the prepare loop) either
marked in the progress set, or resolved to "no candidate", or enqueued. -/
lemma prepareFold_classify (env : RemoteEnv) (cfg : Config₀) (folder : String)
    (fs : FS) (items : List (String × String)) :
    ∀ (st : PrepState), CacheConsistent env cfg st.cache →
      ∀ it ∈ items,
        it.1 ∈ (items.foldl (prepareStep env cfg folder fs) st).progress ∨
        canonUrlInfo env cfg it.1 = none ∨
        ∃ t ∈ (items.foldl (prepareStep env cfg folder fs) st).tasks, t.pid = it.1 := by
  induction items with
  | nil => intro st _ it hit; exact absurd hit (List.not_mem_nil it)
  | cons a as ih =>
    intro st hcons it hit
    rw [List.foldl_cons]
    rcases List.mem_cons.mp hit with rfl | hit
    · rcases prepareStep_cases env cfg folder fs st it with
        ⟨hm, heq⟩ | ⟨hm, c, hg, heq⟩ | ⟨hm, info, c, hg, hex, heq⟩ | ⟨hm, info, c, hg, hex, heq⟩
      · left
        exact prepareFold_progress_mono env cfg folder fs as _ it.1
          (by rw [heq]; exact hm)
      · right; left
        have hfst := (getUrl_spec env cfg it.1 st.cache hcons).1
        rw [hg] at hfst
        exact hfst.symm
      · left
        exact prepareFold_progress_mono env cfg folder fs as _ it.1
          (by rw [heq]; exact mem_progAdd_iff.mpr (Or.inr rfl))
      · right; right
        refine ⟨⟨it.1, info.url, targetPath folder it info, info.media_type⟩, ?_, rfl⟩
        apply prepareFold_tasks_mono env cfg folder fs as _ _
        rw [heq]
        exact List.mem_append.mpr (Or.inr (by simp))
    · exact ih _ (prepareStep_cache_consistent hcons) it hit

/-- Each prepare iteration either skips or enqueues: skipped + enqueued
grows by exactly the number of items. -/
lemma prepareFold_count (env : RemoteEnv) (cfg : Config₀) (folder : String)
    (fs : FS) (items : List (String × String)) :
    ∀ (st : PrepState),
      (items.foldl (prepareStep env cfg folder fs) st).skipped +
        (items.foldl (prepareStep env cfg folder fs) st).tasks.length
      = st.skipped + st.tasks.length + items.length := by
  induction items with
  | nil => intro st; simp
  | cons a as ih =>
    intro st
    rw [List.foldl_cons, ih]
    have hstep : (prepareStep env cfg folder fs st a).skipped +
        (prepareStep env cfg folder fs st a).tasks.length
        = st.skipped + st.tasks.length + 1 := by
      rcases prepareStep_cases env cfg folder fs st a with
        ⟨_, heq⟩ | ⟨_, c, _, heq⟩ | ⟨_, info, c, _, _, heq⟩ | ⟨_, info, c, _, _, heq⟩ <;>
        rw [heq] <;> simp <;> omega
    rw [hstep]
    simp [List.length_cons]
    omega

lemma prepareStep_failed_eq {env : RemoteEnv} {cfg : Config₀} {folder : String}
    {fs : FS} {st : PrepState} {item : String × String} :
    (prepareStep env cfg folder fs st item).failed = st.failed := by
  rcases prepareStep_cases env cfg folder fs st item with
    ⟨_, heq⟩ | ⟨_, c, _, heq⟩ | ⟨_, info, c, _, _, heq⟩ | ⟨_, info, c, _, _, heq⟩ <;>
    rw [heq]

lemma prepareFold_failed_eq (env : RemoteEnv) (cfg : Config₀) (folder : String)
    (fs : FS) (items : List (String × String)) :
    ∀ (st : PrepState),
      (items.foldl (prepareStep env cfg folder fs) st).failed = st.failed := by
  induction items with
  | nil => intro st; rfl
  | cons a as ih =>
    intro st
    rw [List.foldl_cons, ih, prepareStep_failed_eq]

lemma prepareFold_tasks_folder (env : RemoteEnv) (cfg : Config₀) (folder : String)
    (fs : FS) (items : List (String × String)) :
    ∀ (st : PrepState), (∀ t ∈ st.tasks, t.path.folder = folder) →
      ∀ t ∈ (items.foldl (prepareStep env cfg folder fs) st).tasks,
        t.path.folder = folder := by
  induction items with
  | nil => intro st h; exact h
  | cons a as ih =>
    intro st h
    apply ih
    intro t ht
    rcases prepareStep_cases env cfg folder fs st a with
      ⟨_, heq⟩ | ⟨_, c, _, heq⟩ | ⟨_, info, c, _, _, heq⟩ | ⟨_, info, c, _, _, heq⟩ <;>
      rw [heq] at ht
    · exact h t ht
    · exact h t ht
    · exact h t ht
    · rcases List.mem_append.mp ht with ht | ht
      · exact h t ht
      · have : t = ⟨a.1, info.url, targetPath folder a info, info.media_type⟩ := by
          simpa using ht
        rw [this]
        rfl

lemma dirEmpty_not_exists {fs : FS} {folder : String}
    (h : dirEmpty fs folder = true) (n : String) :
    fsExists fs ⟨folder, n⟩ = false := by
  unfold fsExists fsLookup
  cases hf : fs.find? (fun e => (e.1 = (⟨folder, n⟩ : FilePath₀) : Bool)) with
  | none => rfl
  | some e =>
    exfalso
    have hmem : e ∈ fs := List.mem_of_find?_eq_some hf
    have hkey : e.1 = (⟨folder, n⟩ : FilePath₀) := by
      have := List.find?_some hf
      simpa using this
    have hall := (List.all_eq_true.mp h) e hmem
    rw [hkey] at hall
    simp at hall

/-- With the album directory empty, no prepare iteration can take the
"file exists" branch, so the progress set stays untouched. -/
lemma prepareFold_progress_of_dirEmpty (env : RemoteEnv) (cfg : Config₀)
    (folder : String) (fs : FS) (hde : dirEmpty fs folder = true)
    (items : List (String × String)) :
    ∀ (st : PrepState),
      (items.foldl (prepareStep env cfg folder fs) st).progress = st.progress := by
  induction items with
  | nil => intro st; rfl
  | cons a as ih =>
    intro st
    rw [List.foldl_cons, ih]
    rcases prepareStep_cases env cfg folder fs st a with
      ⟨_, heq⟩ | ⟨_, c, _, heq⟩ | ⟨_, info, c, _, hex, heq⟩ | ⟨_, info, c, _, _, heq⟩ <;>
      rw [heq]
    exfalso
    have hfe := dirEmpty_not_exists hde
      (sanitizeFilename a.2 ++ "_" ++ a.1 ++ targetExt info)
    have : targetPath folder a info
        = (⟨folder, sanitizeFilename a.2 ++ "_" ++ a.1 ++ targetExt info⟩ : FilePath₀) := rfl
    rw [this] at hex
    rw [hfe] at hex
    exact Bool.noConfusion hex

/-- The second pass of the prepare loop: when every item is already in
the progress set or resolves to "no candidate", the loop only counts
skips — no task, no mutation of the progress set or cache. -/
lemma prepareFold_second (env : RemoteEnv) (cfg : Config₀) (folder : String)
    (fs : FS) (items : List (String × String)) :
    ∀ (prog : List String) (cache : UrlCache) (s f : Nat),
      CacheConsistent env cfg cache →
      (∀ it ∈ items, it.1 ∈ prog ∨ canonUrlInfo env cfg it.1 = none) →
      items.foldl (prepareStep env cfg folder fs) ⟨[], s, f, prog, cache⟩
        = ⟨[], s + items.length, f, prog, cache⟩ := by
  induction items with
  | nil => intro prog cache s f _ _; simp
  | cons a as ih =>
    intro prog cache s f hcons hcls
    rw [List.foldl_cons]
    have hstep : prepareStep env cfg folder fs ⟨[], s, f, prog, cache⟩ a
        = ⟨[], s + 1, f, prog, cache⟩ := by
      by_cases hin : a.1 ∈ prog
      · unfold prepareStep
        rw [if_pos hin]
      · rcases hcls a (List.mem_cons_self a as) with hin2 | hnone
        · exact absurd hin2 hin
        · have hg := (getUrl_spec env cfg a.1 cache hcons).2.2 hnone
          unfold prepareStep
          rw [if_neg hin, hg]
    rw [hstep]
    have harith : s + 1 + as.length = s + (a :: as).length := by
      simp [List.length_cons]
      omega
    rw [ih prog cache (s + 1) f hcons (fun it hit => hcls it (List.mem_cons_of_mem a hit)),
        harith]

lemma downloadFile_ok_shape {env : RemoteEnv} {url : String} {path : FilePath₀}
    {mt : MediaType} {fs fs1 : FS} {p : FilePath₀}
    (h : downloadFile env url path mt fs = (fs1, .ok p)) :
    p.folder = path.folder ∧ ∃ n, fs1 = fsWrite fs p n := by
  unfold downloadFile at h
  cases hf : env.fetch url with
  | none =>
    rw [hf] at h
    exact absurd (congrArg Prod.snd h) (by simp)
  | some pr =>
    rw [hf] at h
    have hp : p = (if pyLower (splitName path.name).2 ≠ pyLower (contentExt (pyLower pr.1) mt)
        then (⟨path.folder, (splitName path.name).1 ++ contentExt (pyLower pr.1) mt⟩ : FilePath₀)
        else path) := by
      have := congrArg Prod.snd h
      simp only at this
      exact (Except.ok.injEq _ _).mp this.symm
    constructor
    · rw [hp]
      by_cases hc : pyLower (splitName path.name).2 ≠ pyLower (contentExt (pyLower pr.1) mt)
      · rw [if_pos hc]
      · rw [if_neg hc]
    · refine ⟨pr.2, ?_⟩
      have := congrArg Prod.fst h
      simp only at this
      rw [← this, hp]

lemma executeStep_failed_mono {env : RemoteEnv} {st : ExecState} {t : DlTask} :
    st.failed ≤ (executeStep env st t).failed := by
  cases hdl : downloadFile env t.url t.path t.media st.fs with
  | mk fs1 r =>
    cases r with
    | error e => rw [executeStep_error hdl]; simp
    | ok p =>
      rw [executeStep_ok hdl]
      by_cases hsz : 0 < (fsLookup fs1 p).getD 0
      · rw [if_pos hsz]
      · rw [if_neg hsz]; simp

lemma executeFold_failed_mono (env : RemoteEnv) (tasks : List DlTask) :
    ∀ (st : ExecState), st.failed ≤ (tasks.foldl (executeStep env) st).failed := by
  induction tasks with
  | nil => intro st; exact le_rfl
  | cons t ts ih =>
    intro st
    exact le_trans executeStep_failed_mono (ih (executeStep env st t))

/-- A step that did not bump the failed counter took the verified-success
branch: the fetch succeeded, the written file is non-empty, the id was
added. -/
lemma executeStep_no_fail {env : RemoteEnv} {st : ExecState} {t : DlTask}
    (h : (executeStep env st t).failed = st.failed) :
    ∃ fs1 p, downloadFile env t.url t.path t.media st.fs = (fs1, .ok p) ∧
      0 < (fsLookup fs1 p).getD 0 ∧
      executeStep env st t = { st with fs := fs1, downloaded := st.downloaded + 1,
                                       progress := progAdd st.progress t.pid } := by
  cases hdl : downloadFile env t.url t.path t.media st.fs with
  | mk fs1 r =>
    cases r with
    | error e =>
      rw [executeStep_error hdl] at h
      simp at h
    | ok p =>
      by_cases hsz : 0 < (fsLookup fs1 p).getD 0
      · exact ⟨fs1, p, rfl, hsz, by rw [executeStep_ok hdl, if_pos hsz]⟩
      · rw [executeStep_ok hdl, if_neg hsz] at h
        simp at h

lemma exec_no_fail_head {env : RemoteEnv} {st : ExecState} {t : DlTask}
    {ts : List DlTask}
    (h : ((t :: ts).foldl (executeStep env) st).failed = st.failed) :
    (executeStep env st t).failed = st.failed ∧
    (ts.foldl (executeStep env) (executeStep env st t)).failed
      = (executeStep env st t).failed := by
  rw [List.foldl_cons] at h
  have h1 : st.failed ≤ (executeStep env st t).failed := executeStep_failed_mono
  have h2 := executeFold_failed_mono env ts (executeStep env st t)
  omega

/-- A failure-free execute pass marks every task's id downloaded. -/
lemma executeFold_no_fail_adds (env : RemoteEnv) (tasks : List DlTask) :
    ∀ (st : ExecState),
      (tasks.foldl (executeStep env) st).failed = st.failed →
      ∀ t ∈ tasks, t.pid ∈ (tasks.foldl (executeStep env) st).progress := by
  induction tasks with
  | nil => intro st _ t ht; exact absurd ht (List.not_mem_nil t)
  | cons a as ih =>
    intro st h t ht
    obtain ⟨h1, h2⟩ := exec_no_fail_head h
    rw [List.foldl_cons]
    rcases List.mem_cons.mp ht with rfl | ht
    · obtain ⟨fs1, p, _, _, heq⟩ := executeStep_no_fail h1
      apply executeFold_progress_mono
      rw [heq]
      exact mem_progAdd_iff.mpr (Or.inr rfl)
    · exact ih _ h2 t ht

/-- A failure-free execute pass downloads exactly its task count. -/
lemma executeFold_no_fail_count (env : RemoteEnv) (tasks : List DlTask) :
    ∀ (st : ExecState),
      (tasks.foldl (executeStep env) st).failed = st.failed →
      (tasks.foldl (executeStep env) st).downloaded
        = st.downloaded + tasks.length := by
  induction tasks with
  | nil => intro st _; simp
  | cons a as ih =>
    intro st h
    obtain ⟨h1, h2⟩ := exec_no_fail_head h
    obtain ⟨fs1, p, _, _, heq⟩ := executeStep_no_fail h1
    rw [List.foldl_cons, ih _ h2, heq]
    simp [List.length_cons]
    omega

lemma dirEmpty_fsWrite_false {fs : FS} {p : FilePath₀} {n : Nat} {folder : String}
    (h : p.folder = folder) : dirEmpty (fsWrite fs p n) folder = false := by
  unfold dirEmpty fsWrite
  rw [List.all_append]
  simp [h]

/-- A failure-free execute pass over a non-empty task list (all targeting
this album's folder) leaves the album directory non-empty. -/
lemma executeFold_no_fail_dir (env : RemoteEnv) (folder : String)
    (tasks : List DlTask) :
    ∀ (st : ExecState),
      (tasks.foldl (executeStep env) st).failed = st.failed →
      (∀ t ∈ tasks, t.path.folder = folder) →
      (dirEmpty st.fs folder = false ∨ tasks ≠ []) →
      dirEmpty (tasks.foldl (executeStep env) st).fs folder = false := by
  induction tasks with
  | nil =>
    intro st _ _ hne
    rcases hne with hne | hne
    · exact hne
    · exact absurd rfl hne
  | cons a as ih =>
    intro st h hfolders _
    obtain ⟨h1, h2⟩ := exec_no_fail_head h
    obtain ⟨fs1, p, hdl, _, heq⟩ := executeStep_no_fail h1
    obtain ⟨hpf, n, hw⟩ := downloadFile_ok_shape hdl
    rw [List.foldl_cons]
    apply ih _ h2 (fun t ht => hfolders t (List.mem_cons_of_mem a ht))
    left
    rw [heq]
    show dirEmpty fs1 folder = false
    rw [hw]
    exact dirEmpty_fsWrite_false (by rw [hpf]; exact hfolders a (List.mem_cons_self a as))

lemma progDiff_idem (l ids : List String) :
    progDiff (progDiff l ids) ids = progDiff l ids := by
  unfold progDiff
  induction l with
  | nil => rfl
  | cons a as ih =>
    by_cases ha : a ∈ ids
    · simp only [List.filter_cons]
      simp [ha, ih]
    · simp only [List.filter_cons]
      simp [ha, ih]

lemma resetProgress_eq_pos {st : AppState} {A : String}
    {ids : List (String × String)}
    (h : (dirEmpty st.fs A && !ids.isEmpty) = true) :
    resetProgress st A ids = progDiff st.progress (ids.map Prod.fst) := by
  unfold resetProgress
  rw [if_pos h]

lemma resetProgress_eq_neg {st : AppState} {A : String}
    {ids : List (String × String)}
    (h : ¬ (dirEmpty st.fs A && !ids.isEmpty) = true) :
    resetProgress st A ids = st.progress := by
  unfold resetProgress
  rw [if_neg h]

lemma processDownloads_eq_empty (env : RemoteEnv) (cfg : Config₀) (A : String)
    (ids : List (String × String)) (st : AppState)
    (h : (prepareDownloadTasks env cfg A st.fs ids (resetProgress st A ids) st.cache).tasks
          = []) :
    processDownloads env cfg A ids st
      = (⟨st.fs,
          (prepareDownloadTasks env cfg A st.fs ids (resetProgress st A ids) st.cache).progress,
          (prepareDownloadTasks env cfg A st.fs ids (resetProgress st A ids) st.cache).cache⟩,
         ⟨A, 0,
          (prepareDownloadTasks env cfg A st.fs ids (resetProgress st A ids) st.cache).skipped,
          (prepareDownloadTasks env cfg A st.fs ids (resetProgress st A ids) st.cache).failed⟩) := by
  unfold processDownloads
  dsimp only
  rw [if_pos (by rw [h]; rfl)]

lemma processDownloads_eq_nonempty (env : RemoteEnv) (cfg : Config₀) (A : String)
    (ids : List (String × String)) (st : AppState)
    (h : (prepareDownloadTasks env cfg A st.fs ids (resetProgress st A ids) st.cache).tasks
          ≠ []) :
    processDownloads env cfg A ids st
      = (⟨(executeDownloads env
            (prepareDownloadTasks env cfg A st.fs ids (resetProgress st A ids) st.cache).tasks
            st.fs
            (prepareDownloadTasks env cfg A st.fs ids (resetProgress st A ids) st.cache).progress).fs,
          (executeDownloads env
            (prepareDownloadTasks env cfg A st.fs ids (resetProgress st A ids) st.cache).tasks
            st.fs
            (prepareDownloadTasks env cfg A st.fs ids (resetProgress st A ids) st.cache).progress).progress,
          (prepareDownloadTasks env cfg A st.fs ids (resetProgress st A ids) st.cache).cache⟩,
         ⟨A,
          (executeDownloads env
            (prepareDownloadTasks env cfg A st.fs ids (resetProgress st A ids) st.cache).tasks
            st.fs
            (prepareDownloadTasks env cfg A st.fs ids (resetProgress st A ids) st.cache).progress).downloaded,
          (prepareDownloadTasks env cfg A st.fs ids (resetProgress st A ids) st.cache).skipped,
          (prepareDownloadTasks env cfg A st.fs ids (resetProgress st A ids) st.cache).failed +
          (executeDownloads env
            (prepareDownloadTasks env cfg A st.fs ids (resetProgress st A ids) st.cache).tasks
            st.fs
            (prepareDownloadTasks env cfg A st.fs ids (resetProgress st A ids) st.cache).progress).failed⟩) := by
  unfold processDownloads
  dsimp only
  rw [if_neg (by simpa [List.isEmpty_iff] using h)]

/-- The core of idempotence: a run in which every work-list item is
already marked downloaded or resolves to "no candidate", and in which the
reset does not fire effectively, changes nothing and reports pure
skips. -/
lemma processDownloads_second_run (env : RemoteEnv) (cfg : Config₀) (A : String)
    (ids : List (String × String)) (st1 : AppState)
    (hcons1 : CacheConsistent env cfg st1.cache)
    (hcls : ∀ it ∈ ids, it.1 ∈ st1.progress ∨ canonUrlInfo env cfg it.1 = none)
    (hreset : resetProgress st1 A ids = st1.progress) :
    processDownloads env cfg A ids st1 = (st1, ⟨A, 0, ids.length, 0⟩) := by
  have hprep : prepareDownloadTasks env cfg A st1.fs ids (resetProgress st1 A ids) st1.cache
      = ⟨[], 0 + ids.length, 0, st1.progress, st1.cache⟩ := by
    unfold prepareDownloadTasks
    rw [hreset]
    exact prepareFold_second env cfg A st1.fs ids st1.progress st1.cache 0 0 hcons1 hcls
  rw [processDownloads_eq_empty env cfg A ids st1 (by rw [hprep])]
  rw [hprep]
  rw [Nat.zero_add]

/-- C10 amended.  Starting from a consistent URL cache, if a run of
`process_downloads` reports no failures, running it again against the
state it produced changes nothing — same files, same Progress Set, same
cache — and the second run reports 0 downloaded, 0 failed, and
`skipped₁ + downloaded₁` skipped.  (That skip count is NOT in general the
number of existing valid files: an item skipped for lack of a usable
candidate, e.g. a video with video downloads disabled, produces no file —
see the counterexample.) -/
theorem scheduler_idempotent (env : RemoteEnv) (cfg : Config₀) (A : String)
    (ids : List (String × String)) (st : AppState)
    (hcons : CacheConsistent env cfg st.cache)
    (hfail : (processDownloads env cfg A ids st).2.failed = 0) :
    processDownloads env cfg A ids (processDownloads env cfg A ids st).1
      = ((processDownloads env cfg A ids st).1,
         ⟨A, 0, (processDownloads env cfg A ids st).2.skipped
              + (processDownloads env cfg A ids st).2.downloaded, 0⟩) := by
  have hPfail : (prepareDownloadTasks env cfg A st.fs ids (resetProgress st A ids)
      st.cache).failed = 0 := by
    unfold prepareDownloadTasks
    exact prepareFold_failed_eq env cfg A st.fs ids _
  have hPcons : CacheConsistent env cfg
      (prepareDownloadTasks env cfg A st.fs ids (resetProgress st A ids) st.cache).cache := by
    unfold prepareDownloadTasks
    exact prepareFold_cache_consistent env cfg A st.fs ids _ hcons
  have hPcls := by
    have := prepareFold_classify env cfg A st.fs ids
      ⟨[], 0, 0, resetProgress st A ids, st.cache⟩ hcons
    exact this
  have hPcount : (prepareDownloadTasks env cfg A st.fs ids (resetProgress st A ids)
        st.cache).skipped +
      (prepareDownloadTasks env cfg A st.fs ids (resetProgress st A ids)
        st.cache).tasks.length = ids.length := by
    unfold prepareDownloadTasks
    have := prepareFold_count env cfg A st.fs ids ⟨[], 0, 0, resetProgress st A ids, st.cache⟩
    simpa using this
  by_cases hT : (prepareDownloadTasks env cfg A st.fs ids (resetProgress st A ids)
      st.cache).tasks = []
  · -- no downloads: the first run only skipped
    have hr1 := processDownloads_eq_empty env cfg A ids st hT
    rw [hr1]
    have hcls1 : ∀ it ∈ ids,
        it.1 ∈ (prepareDownloadTasks env cfg A st.fs ids (resetProgress st A ids)
          st.cache).progress ∨
        canonUrlInfo env cfg it.1 = none := by
      intro it hit
      rcases hPcls it hit with hp | hn | ⟨t, ht, _⟩
      · exact Or.inl hp
      · exact Or.inr hn
      · rw [show (prepareDownloadTasks env cfg A st.fs ids (resetProgress st A ids)
            st.cache) = ids.foldl (prepareStep env cfg A st.fs)
            ⟨[], 0, 0, resetProgress st A ids, st.cache⟩ from rfl] at hT
        rw [hT] at ht
        exact absurd ht (List.not_mem_nil t)
    have hreset1 : resetProgress
        (⟨st.fs,
          (prepareDownloadTasks env cfg A st.fs ids (resetProgress st A ids) st.cache).progress,
          (prepareDownloadTasks env cfg A st.fs ids (resetProgress st A ids) st.cache).cache⟩ :
          AppState) A ids
        = (prepareDownloadTasks env cfg A st.fs ids (resetProgress st A ids)
            st.cache).progress := by
      by_cases hR : (dirEmpty st.fs A && !ids.isEmpty) = true
      · have hde : dirEmpty st.fs A = true := by
          cases hd : dirEmpty st.fs A
          · rw [hd] at hR; simp at hR
          · rfl
        have hprog : (prepareDownloadTasks env cfg A st.fs ids (resetProgress st A ids)
            st.cache).progress = progDiff st.progress (ids.map Prod.fst) := by
          unfold prepareDownloadTasks
          rw [prepareFold_progress_of_dirEmpty env cfg A st.fs hde ids]
          exact resetProgress_eq_pos hR
        have h1 : resetProgress
            (⟨st.fs,
              (prepareDownloadTasks env cfg A st.fs ids (resetProgress st A ids)
                st.cache).progress,
              (prepareDownloadTasks env cfg A st.fs ids (resetProgress st A ids)
                st.cache).cache⟩ : AppState) A ids
            = progDiff (prepareDownloadTasks env cfg A st.fs ids (resetProgress st A ids)
                st.cache).progress (ids.map Prod.fst) :=
          resetProgress_eq_pos hR
        rw [h1, hprog, progDiff_idem]
      · have h1 : resetProgress
            (⟨st.fs,
              (prepareDownloadTasks env cfg A st.fs ids (resetProgress st A ids)
                st.cache).progress,
              (prepareDownloadTasks env cfg A st.fs ids (resetProgress st A ids)
                st.cache).cache⟩ : AppState) A ids
            = (prepareDownloadTasks env cfg A st.fs ids (resetProgress st A ids)
                st.cache).progress :=
          resetProgress_eq_neg hR
        exact h1
    rw [processDownloads_second_run env cfg A ids _ hPcons hcls1 hreset1]
    have hskip : ids.length
        = (prepareDownloadTasks env cfg A st.fs ids (resetProgress st A ids)
            st.cache).skipped + 0 := by
      rw [← hPcount, hT]
      simp
    rw [show (⟨A, 0,
        (prepareDownloadTasks env cfg A st.fs ids (resetProgress st A ids) st.cache).skipped,
        (prepareDownloadTasks env cfg A st.fs ids (resetProgress st A ids)
          st.cache).failed⟩ : AlbumSummary).skipped
        = (prepareDownloadTasks env cfg A st.fs ids (resetProgress st A ids)
            st.cache).skipped from rfl]
    rw [show (⟨A, 0,
        (prepareDownloadTasks env cfg A st.fs ids (resetProgress st A ids) st.cache).skipped,
        (prepareDownloadTasks env cfg A st.fs ids (resetProgress st A ids)
          st.cache).failed⟩ : AlbumSummary).downloaded = 0 from rfl]
    rw [← hskip]
  · -- the first run downloaded every task it queued
    have hr1 := processDownloads_eq_nonempty env cfg A ids st hT
    rw [hr1] at hfail ⊢
    have hefail : (executeDownloads env
        (prepareDownloadTasks env cfg A st.fs ids (resetProgress st A ids) st.cache).tasks
        st.fs
        (prepareDownloadTasks env cfg A st.fs ids (resetProgress st A ids)
          st.cache).progress).failed = 0 := by
      have : (prepareDownloadTasks env cfg A st.fs ids (resetProgress st A ids)
          st.cache).failed +
        (executeDownloads env
          (prepareDownloadTasks env cfg A st.fs ids (resetProgress st A ids) st.cache).tasks
          st.fs
          (prepareDownloadTasks env cfg A st.fs ids (resetProgress st A ids)
            st.cache).progress).failed = 0 := hfail
      omega
    have hnofail : ((prepareDownloadTasks env cfg A st.fs ids (resetProgress st A ids)
          st.cache).tasks.foldl (executeStep env)
        ⟨st.fs, (prepareDownloadTasks env cfg A st.fs ids (resetProgress st A ids)
          st.cache).progress, 0, 0⟩).failed
        = (⟨st.fs, (prepareDownloadTasks env cfg A st.fs ids (resetProgress st A ids)
            st.cache).progress, 0, 0⟩ : ExecState).failed := hefail
    have hfolders : ∀ t ∈ (prepareDownloadTasks env cfg A st.fs ids (resetProgress st A ids)
        st.cache).tasks, t.path.folder = A := by
      unfold prepareDownloadTasks
      exact prepareFold_tasks_folder env cfg A st.fs ids
        ⟨[], 0, 0, resetProgress st A ids, st.cache⟩ (by intro t ht; simp at ht)
    have hdir : dirEmpty (executeDownloads env
        (prepareDownloadTasks env cfg A st.fs ids (resetProgress st A ids) st.cache).tasks
        st.fs
        (prepareDownloadTasks env cfg A st.fs ids (resetProgress st A ids)
          st.cache).progress).fs A = false :=
      executeFold_no_fail_dir env A _ _ hnofail hfolders (Or.inr hT)
    have hcls1 : ∀ it ∈ ids,
        it.1 ∈ (executeDownloads env
          (prepareDownloadTasks env cfg A st.fs ids (resetProgress st A ids) st.cache).tasks
          st.fs
          (prepareDownloadTasks env cfg A st.fs ids (resetProgress st A ids)
            st.cache).progress).progress ∨
        canonUrlInfo env cfg it.1 = none := by
      intro it hit
      rcases hPcls it hit with hp | hn | ⟨t, ht, hpid⟩
      · exact Or.inl (executeFold_progress_mono env _ _ it.1 hp)
      · exact Or.inr hn
      · left
        rw [← hpid]
        exact executeFold_no_fail_adds env _ _ hnofail t ht
    have hreset1 : resetProgress
        (⟨(executeDownloads env
            (prepareDownloadTasks env cfg A st.fs ids (resetProgress st A ids) st.cache).tasks
            st.fs
            (prepareDownloadTasks env cfg A st.fs ids (resetProgress st A ids)
              st.cache).progress).fs,
          (executeDownloads env
            (prepareDownloadTasks env cfg A st.fs ids (resetProgress st A ids) st.cache).tasks
            st.fs
            (prepareDownloadTasks env cfg A st.fs ids (resetProgress st A ids)
              st.cache).progress).progress,
          (prepareDownloadTasks env cfg A st.fs ids (resetProgress st A ids)
            st.cache).cache⟩ : AppState) A ids
        = (executeDownloads env
            (prepareDownloadTasks env cfg A st.fs ids (resetProgress st A ids) st.cache).tasks
            st.fs
            (prepareDownloadTasks env cfg A st.fs ids (resetProgress st A ids)
              st.cache).progress).progress := by
      apply resetProgress_eq_neg
      dsimp only
      rw [hdir]
      simp
    rw [processDownloads_second_run env cfg A ids _ hPcons hcls1 hreset1]
    have hdown : (executeDownloads env
        (prepareDownloadTasks env cfg A st.fs ids (resetProgress st A ids) st.cache).tasks
        st.fs
        (prepareDownloadTasks env cfg A st.fs ids (resetProgress st A ids)
          st.cache).progress).downloaded
        = (prepareDownloadTasks env cfg A st.fs ids (resetProgress st A ids)
            st.cache).tasks.length := by
      have := executeFold_no_fail_count env
        (prepareDownloadTasks env cfg A st.fs ids (resetProgress st A ids) st.cache).tasks
        ⟨st.fs, (prepareDownloadTasks env cfg A st.fs ids (resetProgress st A ids)
          st.cache).progress, 0, 0⟩ hnofail
      simpa using this
    have hskip : ids.length
        = (prepareDownloadTasks env cfg A st.fs ids (resetProgress st A ids)
            st.cache).skipped +
          (executeDownloads env
            (prepareDownloadTasks env cfg A st.fs ids (resetProgress st A ids) st.cache).tasks
            st.fs
            (prepareDownloadTasks env cfg A st.fs ids (resetProgress st A ids)
              st.cache).progress).downloaded := by
      rw [hdown, ← hPcount]
    rw [show ids.length
        = (prepareDownloadTasks env cfg A st.fs ids (resetProgress st A ids)
            st.cache).skipped +
          (executeDownloads env
            (prepareDownloadTasks env cfg A st.fs ids (resetProgress st A ids) st.cache).tasks
            st.fs
            (prepareDownloadTasks env cfg A st.fs ids (resetProgress st A ids)
              st.cache).progress).downloaded from hskip]

/-- C10 counterexample: one video item with video downloads disabled.
Both runs report 1 skipped, yet the filesystem ends (and stays) with NO
valid file — the claim's "N skipped where N is the number of existing
valid files" fails (1 ≠ 0).  The idempotence part itself survives: the
state is unchanged. -/
theorem scheduler_idempotent_cex :
    (processDownloads envVideoOnly cfgNoVideo "A" [("p1", "t")]
        (⟨[], [], []⟩ : AppState)).2.skipped = 1 ∧
    (processDownloads envVideoOnly cfgNoVideo "A" [("p1", "t")]
        (processDownloads envVideoOnly cfgNoVideo "A" [("p1", "t")]
          (⟨[], [], []⟩ : AppState)).1).2.skipped = 1 ∧
    (processDownloads envVideoOnly cfgNoVideo "A" [("p1", "t")]
        (processDownloads envVideoOnly cfgNoVideo "A" [("p1", "t")]
          (⟨[], [], []⟩ : AppState)).1).1.fs = [] :=
  ⟨rfl, rfl, rfl⟩

/-- Environment for C10's witness: one photo with an original JPEG that
downloads successfully (7 bytes of image/jpeg). -/
def envOnePhoto : RemoteEnv :=
  ⟨fun _ => .photo,
   fun _ => [⟨"u/a.jpg", "Original", 10, 10, 5⟩],
   fun _ => some ("image/jpeg", 7)⟩

/-- C10 amended witness: a clean first run (1 download, 0 failures);
the second run changes nothing and reports 0 downloaded,
`skipped₁ + downloaded₁` skipped. -/
theorem scheduler_idempotent_witness :
    processDownloads envOnePhoto cfgVideo "A" [("p1", "t")]
        (processDownloads envOnePhoto cfgVideo "A" [("p1", "t")]
          (⟨[], [], []⟩ : AppState)).1
      = ((processDownloads envOnePhoto cfgVideo "A" [("p1", "t")]
            (⟨[], [], []⟩ : AppState)).1,
         ⟨"A", 0,
          (processDownloads envOnePhoto cfgVideo "A" [("p1", "t")]
            (⟨[], [], []⟩ : AppState)).2.skipped +
          (processDownloads envOnePhoto cfgVideo "A" [("p1", "t")]
            (⟨[], [], []⟩ : AppState)).2.downloaded, 0⟩) :=
  scheduler_idempotent envOnePhoto cfgVideo "A" [("p1", "t")] ⟨[], [], []⟩
    (fun pid info h => absurd h (List.not_mem_nil _))
    (by rfl)

end FlickrDL
